import Mathlib

/-!
Verification development for the para-fintech-backend orchestration service.

The TypeScript source is embedded shallowly:

* pure helpers of the `ethers` library that the source calls
  (`getAddress`, `parseEther`, `serializeTransaction`, `Transaction.from`,
  `BigInt(...)`, `toString`) are modelled as executable Lean functions over
  `List Char` / `List Nat` (bytes), following the EIP-55 / EIP-1559 / RLP
  rules those library calls implement;
* every external service (Supabase database, Para custody API, JSON-RPC
  node) is a record of response functions, and each route handler is a
  Lean function from that record plus the request to the HTTP response it
  produces together with the exact list of external calls it made;
* JavaScript `bigint` values are `Int` (or `Nat` where the source value is
  a count), with explicit range checks where the serialization enforces
  them; decimal conversion is exact integer arithmetic, as in the source.
-/

set_option maxRecDepth 100000

namespace ParaFintech

/-! ### Big-endian byte strings and decimal digit strings -/

/-- Minimal big-endian byte rendering of a natural number, with explicit
fuel so the definition reduces in the kernel. -/
def beBytesAux : Nat → Nat → List Nat
  | 0, _ => []
  | fuel + 1, n => if n = 0 then [] else beBytesAux fuel (n / 256) ++ [n % 256]

/-- Minimal big-endian bytes of `n` (`0` renders as the empty string), as
RLP integer payloads require. -/
def beBytes (n : Nat) : List Nat := beBytesAux n n

/-- Value of a big-endian byte string. -/
def beToNat (bs : List Nat) : Nat := bs.foldl (fun a b => a * 256 + b) 0

/-- Decimal digit rendering of a natural number, with fuel; models the
JavaScript `toString` on non-negative `bigint`/`number` values. -/
def natDecAux : Nat → Nat → List Char
  | 0, _ => []
  | fuel + 1, n =>
    if n < 10 then [Char.ofNat (48 + n)]
    else natDecAux fuel (n / 10) ++ [Char.ofNat (48 + n % 10)]

/-- Decimal digit string of a natural number. -/
def natDec (n : Nat) : List Char := natDecAux (n + 1) n

/-- Decimal string of a JavaScript `bigint` (possibly negative). -/
def intDec (i : Int) : List Char :=
  if i < 0 then '-' :: natDec i.natAbs else natDec i.toNat

/-- Value of a list of decimal digit characters (callers guarantee the
characters are digits). -/
def decDigitsVal (cs : List Char) : Nat := cs.foldl (fun a c => a * 10 + (c.toNat - 48)) 0

/-! ### Hexadecimal characters and byte strings -/

/-- Value of a hexadecimal digit, given its character code (0 for
non-digits; callers guard with `isHexDigitCh`). -/
def hexValCode (n : Nat) : Nat :=
  if 48 ≤ n ∧ n ≤ 57 then n - 48
  else if 97 ≤ n ∧ n ≤ 102 then n - 87
  else if 65 ≤ n ∧ n ≤ 70 then n - 55
  else 0

/-- Value of a hexadecimal digit character. -/
def hexVal (c : Char) : Nat := hexValCode c.toNat

/-- `[0-9a-fA-F]`. -/
def isHexDigitCh (c : Char) : Bool :=
  decide ((48 ≤ c.toNat ∧ c.toNat ≤ 57) ∨ (97 ≤ c.toNat ∧ c.toNat ≤ 102) ∨
    (65 ≤ c.toNat ∧ c.toNat ≤ 70))

/-- `[0-9a-f]`. -/
def isLowerHexCh (c : Char) : Bool :=
  decide ((48 ≤ c.toNat ∧ c.toNat ≤ 57) ∨ (97 ≤ c.toNat ∧ c.toNat ≤ 102))

/-- Bytes of a hexadecimal character string, two characters per byte
(ignores a trailing odd character; callers check evenness). -/
def hexPairsToBytes : List Char → List Nat
  | c1 :: c2 :: rest => (hexVal c1 * 16 + hexVal c2) :: hexPairsToBytes rest
  | _ => []

/-- Character code of the lowercase rendering of a hexadecimal digit value. -/
def lowerHexCode (d : Nat) : Nat := if d < 10 then 48 + d else 87 + d

/-- Lowercase rendering of a hexadecimal digit value. -/
def lowerHexChar (d : Nat) : Char := Char.ofNat (lowerHexCode d)

/-- Two lowercase hexadecimal characters of a byte. -/
def byteToLowerHex (b : Nat) : List Char := [lowerHexChar (b / 16), lowerHexChar (b % 16)]

/-- Lowercase hexadecimal string of a byte string. -/
def bytesToLowerHex (bs : List Nat) : List Char := (bs.map byteToLowerHex).flatten

/-- ASCII lowercasing, as JavaScript `toLowerCase` acts on the character
sets this code manipulates. -/
def asciiToLower (c : Char) : Char :=
  if 65 ≤ c.toNat ∧ c.toNat ≤ 90 then Char.ofNat (c.toNat + 32) else c

/-- ASCII uppercasing. -/
def asciiToUpper (c : Char) : Char :=
  if 97 ≤ c.toNat ∧ c.toNat ≤ 122 then Char.ofNat (c.toNat - 32) else c

/-! ### EIP-55 checksummed addresses: model of the ethers `getAddress`
call the route and `blockchainService` use for address validation -/

/-- Nibble `i` of a keccak digest byte string: high nibble of byte `i / 2`
for even `i`, low nibble for odd `i`, as the EIP-55 loop reads it. -/
def hashNibble (hs : List Nat) (i : Nat) : Nat :=
  let b := hs.getD (i / 2) 0
  if i % 2 = 0 then b / 16 % 16 else b % 16

/-- The EIP-55 casing loop: uppercase character `i` of the lowercase body
whenever the corresponding digest nibble is at least 8. -/
def csAux (hs : List Nat) : Nat → List Char → List Char
  | _, [] => []
  | i, c :: cs => (if 8 ≤ hashNibble hs i then asciiToUpper c else c) :: csAux hs (i + 1) cs

/-- Checksummed casing of an address body. The keccak-256 digest of the
lowercase body is abstracted as the parameter `k`. -/
def checksumBody (k : List Char → List Nat) (body : List Char) : List Char :=
  csAux (k (body.map asciiToLower)) 0 (body.map asciiToLower)

/-- `[A-F]`. -/
def isUpperHexLetter (c : Char) : Bool := decide (65 ≤ c.toNat ∧ c.toNat ≤ 70)

/-- `[a-f]`. -/
def isLowerHexLetter (c : Char) : Bool := decide (97 ≤ c.toNat ∧ c.toNat ≤ 102)

/-- `[0-9]`. -/
def isDigitCh (c : Char) : Bool := decide (48 ≤ c.toNat ∧ c.toNat ≤ 57)

/-- `[0-9A-Za-z]`. -/
def isAlnumCh (c : Char) : Bool :=
  decide ((48 ≤ c.toNat ∧ c.toNat ≤ 57) ∨ (65 ≤ c.toNat ∧ c.toNat ≤ 90) ∨
    (97 ≤ c.toNat ∧ c.toNat ≤ 122))

/-- Shape test of an ICAP address: `^XE[0-9]{2}[0-9A-Za-z]{30,31}$`. -/
def icapShape (cs : List Char) : Bool :=
  decide (cs.length = 34 ∨ cs.length = 35) &&
  (cs.getD 0 ' ' == 'X') && (cs.getD 1 ' ' == 'E') &&
  isDigitCh (cs.getD 2 ' ') && isDigitCh (cs.getD 3 ' ') &&
  (cs.drop 4).all isAlnumCh

/-- Numeric value of the IBAN digit expansion (digits keep their value,
letters expand to two digits `10`–`35`); the iterated block-mod loop of
the source computes exactly this number's residue. -/
def ibanDigitsVal (cs : List Char) : Nat :=
  cs.foldl (fun a c => if isDigitCh c then a * 10 + (c.toNat - 48) else a * 100 + (c.toNat - 55)) 0

/-- The two IBAN check digits of an ICAP address. -/
def ibanChecksumOf (cs : List Char) : List Char :=
  let up := cs.map asciiToUpper
  let rearranged := up.drop 4 ++ up.take 2 ++ ['0', '0']
  let check := 98 - ibanDigitsVal rearranged % 97
  [Char.ofNat (48 + check / 10 % 10), Char.ofNat (48 + check % 10)]

/-- Base-36 digit value of a character code (after lowercasing). -/
def b36ValCode (n : Nat) : Nat :=
  if 48 ≤ n ∧ n ≤ 57 then n - 48 else if 97 ≤ n ∧ n ≤ 122 then n - 87 else 0

/-- Base-36 value of an ICAP payload. -/
def base36Val (cs : List Char) : Nat :=
  cs.foldl (fun a c => a * 36 + b36ValCode (asciiToLower c).toNat) 0

/-- Minimal lowercase hexadecimal rendering, with fuel. -/
def natHexAux : Nat → Nat → List Char
  | 0, _ => []
  | fuel + 1, n =>
    if n < 16 then [lowerHexChar n] else natHexAux fuel (n / 16) ++ [lowerHexChar (n % 16)]

/-- Minimal lowercase hexadecimal rendering of a natural number
(JavaScript `toString(16)`). -/
def natHex (n : Nat) : List Char := natHexAux (n + 1) n

/-- Hexadecimal rendering left-padded with zeros to 40 characters. -/
def hexPad40 (n : Nat) : List Char :=
  let h := natHex n
  List.replicate (40 - h.length) '0' ++ h

/-- Model of ethers `getAddress`: accepts an optionally `0x`-prefixed
40-hex-character string, enforcing the EIP-55 checksum when the letters
are mixed-case, or an ICAP `XE..` address with a valid IBAN checksum;
returns the checksummed address or fails. -/
def getAddress (k : List Char → List Nat) (cs : List Char) : Option (List Char) :=
  let body := if cs.take 2 = ['0', 'x'] then cs.drop 2 else cs
  if body.length = 40 ∧ body.all isHexDigitCh then
    if (('0' :: 'x' :: body).any isUpperHexLetter ∧ ('0' :: 'x' :: body).any isLowerHexLetter) ∧
        '0' :: 'x' :: checksumBody k body ≠ '0' :: 'x' :: body then none
    else some ('0' :: 'x' :: checksumBody k body)
  else if icapShape cs then
    if ibanChecksumOf cs = [cs.getD 2 ' ', cs.getD 3 ' '] then
      some ('0' :: 'x' :: checksumBody k (hexPad40 (base36Val (cs.drop 4))))
    else none
  else none

/-- String-level wrapper of `getAddress`. -/
def getAddressS (k : List Char → List Nat) (s : String) : Option String :=
  (getAddress k s.data).map fun cs => ⟨cs⟩

/-! ### RLP encoding: the byte layout behind the ethers serialization the
source calls in `buildUnsignedTransaction` and `serializeWithSignature` -/

/-- RLP encoding of a byte string item. -/
def rlpStr (bs : List Nat) : List Nat :=
  if bs.length = 1 ∧ bs.getD 0 0 < 128 then bs
  else if bs.length ≤ 55 then (128 + bs.length) :: bs
  else (183 + (beBytes bs.length).length) :: (beBytes bs.length ++ bs)

/-- RLP encoding of a numeric quantity (minimal big-endian bytes). -/
def rlpNat (n : Nat) : List Nat := rlpStr (beBytes n)

/-- RLP list header wrapped around an already-encoded payload. -/
def rlpListWrap (payload : List Nat) : List Nat :=
  if payload.length ≤ 55 then (192 + payload.length) :: payload
  else (247 + (beBytes payload.length).length) :: (beBytes payload.length ++ payload)

/-- Decode one RLP string item, returning it with the unconsumed tail. -/
def rdStr : List Nat → Option (List Nat × List Nat)
  | [] => none
  | b :: rest =>
    if b < 128 then some ([b], rest)
    else if b < 184 then
      if rest.length < b - 128 then none
      else some (rest.take (b - 128), rest.drop (b - 128))
    else if b < 192 then
      if rest.length < b - 183 then none
      else
        let len := beToNat (rest.take (b - 183))
        let r2 := rest.drop (b - 183)
        if r2.length < len then none else some (r2.take len, r2.drop len)
    else none

/-- Decode an RLP list header, returning the list payload and the bytes
after it. -/
def rdListHdr : List Nat → Option (List Nat × List Nat)
  | [] => none
  | b :: rest =>
    if b < 192 then none
    else if b < 248 then
      if rest.length < b - 192 then none
      else some (rest.take (b - 192), rest.drop (b - 192))
    else
      if rest.length < b - 247 then none
      else
        let len := beToNat (rest.take (b - 247))
        let r2 := rest.drop (b - 247)
        if r2.length < len then none else some (r2.take len, r2.drop len)

/-- Value of a hexadecimal digit character string. -/
def hexDigitsVal (cs : List Char) : Nat := cs.foldl (fun a c => a * 16 + hexVal c) 0

/-! ### Data model: the TypeScript interfaces of `src/types` -/

/-- Row of the `user_wallets` table. -/
structure UserWallet where
  supabase_id : String
  para_wallet_id : String
  wallet_address : Option String
deriving DecidableEq

/-- Wallet object returned by the Para custody API (`status` is the string
union `"creating" | "ready"` in the source, kept as a string here because
the route compares it with string literals). -/
structure ParaWallet where
  id : String
  type : String
  status : String
  address : Option String
  publicKey : Option String
  createdAt : String
deriving DecidableEq

/-- Response of the Para `sign-raw` endpoint. -/
structure ParaSignResponse where
  signature : String
  data : String
deriving DecidableEq

/-- Body of `POST /transaction/send`. A missing `to`/`amount` in the JSON
body and the empty string are indistinguishable to the handler (both are
falsy), so absence is modelled as `""`. -/
structure SendTransactionRequest where
  «to» : String
  amount : String
  gasLimit : Option String := none
  maxFeePerGas : Option String := none
  maxPriorityFeePerGas : Option String := none
deriving DecidableEq

/-- Fee data returned by the RPC provider (`getFeeData`); each component
may be null. -/
structure FeeData where
  gasPrice : Option Int
  maxFeePerGas : Option Int
  maxPriorityFeePerGas : Option Int
deriving DecidableEq

/-- Transaction receipt as the status route reads it (only the fields the
handler touches; `status`, `gasPrice` and `value` may be null). -/
structure TransactionReceipt where
  hash : String
  blockNumber : Nat
  blockHash : String
  status : Option Nat
  gasUsed : Nat
  gasPrice : Option Nat
  «from» : String
  «to» : Option String
  value : Option Nat
deriving DecidableEq

/-- The transaction object literal built in `buildUnsignedTransaction`
(`from` is spelled `fromAddr`; JavaScript `bigint` fields are `Int`, the
nonce is the `number` returned by `getTransactionCount`). -/
structure TxRecord where
  type : Nat
  «to» : String
  «from» : String
  value : Int
  data : String
  gasLimit : Int
  nonce : Nat
  maxFeePerGas : Int
  maxPriorityFeePerGas : Int
  chainId : Int
  signature : Option String := none
deriving DecidableEq

/-! ### Models of the ethers / JavaScript numeric-string conversions -/

/-- Nonempty all-digit strings parse; anything else throws. -/
def parseBigIntDigits (cs : List Char) : Option Nat :=
  if cs ≠ [] ∧ cs.all isDigitCh then some (decDigitsVal cs) else none

/-- Model of the JavaScript `BigInt(string)` constructor on the string
shapes this service can receive: optional sign with decimal digits, `0x`
hexadecimal, and the empty string (which is `0n`). -/
def jsBigInt (s : String) : Option Int :=
  if s.data = [] then some 0
  else if s.data.getD 0 ' ' = '-' then (parseBigIntDigits (s.data.drop 1)).map (fun n => -(n : Int))
  else if s.data.getD 0 ' ' = '+' then (parseBigIntDigits (s.data.drop 1)).map (fun n => (n : Int))
  else if s.data.take 2 = ['0', 'x'] ∨ s.data.take 2 = ['0', 'X'] then
    if s.data.drop 2 ≠ [] ∧ (s.data.drop 2).all isHexDigitCh then
      some ((hexDigitsVal (s.data.drop 2) : Int))
    else none
  else (parseBigIntDigits s.data).map (fun n => (n : Int))

/-- Model of ethers `parseEther` (`parseUnits` with 18 decimals): the
string must match `^(-?)([0-9]*)\.?([0-9]*)$` with at least one digit;
fractional digits beyond the 18th must be zero ("too many decimals");
the result is the exact base-unit integer, with the signed 512-bit
width check of `FixedNumber`. -/
def parseEtherChars (cs : List Char) : Option Int :=
  let negAndBody : Bool × List Char :=
    match cs with
    | '-' :: rest => (true, rest)
    | _ => (false, cs)
  let neg := negAndBody.1
  let body := negAndBody.2
  let whole := body.takeWhile isDigitCh
  let rest1 := body.dropWhile isDigitCh
  let frac? : Option (List Char) :=
    match rest1 with
    | [] => some []
    | '.' :: rest2 => if rest2.all isDigitCh then some rest2 else none
    | _ => none
  match frac? with
  | none => none
  | some frac =>
    if whole.length + frac.length = 0 then none
    else if (frac.drop 18).any (fun c => c ≠ '0') then none
    else
      let dec18 := (frac ++ List.replicate 18 '0').take 18
      let mag := decDigitsVal (whole ++ dec18)
      let v : Int := if neg then -(mag : Int) else (mag : Int)
      if v < -(2 ^ 511) ∨ (2 : Int) ^ 511 ≤ v then none else some v

/-- String-level `parseEther`. -/
def parseEther (s : String) : Option Int := parseEtherChars s.data

/-! ### Model of the ethers EIP-1559 transaction serialization and
re-parsing (`serializeTransaction` / `Transaction.from`) -/

/-- Body of a well-formed `0x`-prefixed 40-hex-character address string. -/
def addressBodyOf (cs : List Char) : Option (List Char) :=
  if cs.take 2 = ['0', 'x'] ∧ (cs.drop 2).length = 40 ∧ (cs.drop 2).all isHexDigitCh
  then some (cs.drop 2) else none

/-- Bytes of a `0x`-prefixed even-length hexadecimal data string. -/
def dataBytesOf (cs : List Char) : Option (List Nat) :=
  if cs.take 2 = ['0', 'x'] ∧ (cs.drop 2).all isHexDigitCh ∧ (cs.drop 2).length % 2 = 0
  then some (hexPairsToBytes (cs.drop 2)) else none

/-- A numeric transaction field: the serialization rejects negative values
and quantities of more than 32 bytes. -/
def intWord (i : Int) : Option Nat :=
  if 0 ≤ i ∧ i < (2 : Int) ^ 256 then some i.toNat else none

/-- Split a 65-byte `0x`-prefixed signature into `(r, s, yParity)`,
accepting `v` of 0, 1, 27 or 28, as `Signature.from` does. -/
def splitSigChars (cs : List Char) : Option (Nat × Nat × Nat) :=
  if cs.take 2 = ['0', 'x'] ∧ (cs.drop 2).length = 130 ∧ (cs.drop 2).all isHexDigitCh then
    if hexDigitsVal ((cs.drop 2).drop 128) = 27 ∨ hexDigitsVal ((cs.drop 2).drop 128) = 0 then
      some (hexDigitsVal ((cs.drop 2).take 64), hexDigitsVal (((cs.drop 2).drop 64).take 64), 0)
    else if hexDigitsVal ((cs.drop 2).drop 128) = 28 ∨ hexDigitsVal ((cs.drop 2).drop 128) = 1 then
      some (hexDigitsVal ((cs.drop 2).take 64), hexDigitsVal (((cs.drop 2).drop 64).take 64), 1)
    else none
  else none

/-- The nine RLP-encoded fields of the unsigned EIP-1559 payload, in
consensus order (`chainId, nonce, maxPriorityFeePerGas, maxFeePerGas,
gasLimit, to, value, data, accessList`); the access list is always empty
in this service. -/
def txFieldItems (tx : TxRecord) : Option (List Nat) := do
  let chainW ← intWord tx.chainId
  let prioW ← intWord tx.maxPriorityFeePerGas
  let feeW ← intWord tx.maxFeePerGas
  let gasW ← intWord tx.gasLimit
  let valW ← intWord tx.value
  let toBody ← addressBodyOf tx.«to».data
  let dataB ← dataBytesOf tx.data.data
  pure (rlpNat chainW ++ rlpNat tx.nonce ++ rlpNat prioW ++ rlpNat feeW ++ rlpNat gasW ++
    rlpStr (hexPairsToBytes toBody) ++ rlpNat valW ++ rlpStr dataB ++ [192])

/-- Model of the ethers serialization the source calls: the typed `0x02`
envelope around the RLP list of fields, with `(yParity, r, s)` appended
when a signature is attached. Unknown fields of the transaction object
(such as `from`) are ignored, exactly as the library ignores them. -/
def serializeTransaction (tx : TxRecord) : Option String :=
  if tx.type = 2 ∧ tx.nonce < 2 ^ 256 then
    match txFieldItems tx with
    | none => none
    | some fields =>
      match tx.signature with
      | none => some ⟨'0' :: 'x' :: bytesToLowerHex (2 :: rlpListWrap fields)⟩
      | some sig =>
        match splitSigChars sig.data with
        | none => none
        | some (r, s, y) =>
          some ⟨'0' :: 'x' ::
            bytesToLowerHex (2 :: rlpListWrap (fields ++ rlpNat y ++ rlpNat r ++ rlpNat s))⟩
  else none

/-- Field view of a re-parsed serialized transaction. -/
structure ParsedTx where
  chainId : Nat
  nonce : Nat
  maxPriorityFeePerGas : Nat
  maxFeePerGas : Nat
  gasLimit : Nat
  «to» : String
  value : Nat
  dataHex : String
  sig : Option (Nat × Nat × Nat)
deriving DecidableEq

/-- Decode the RLP field items of an EIP-1559 list payload: the nine
consensus fields, then either nothing (unsigned) or the three signature
items `(yParity, r, s)`. The `to` address is normalized to its
checksummed form, as `Transaction.from` normalizes it. -/
def parsePayload (k : List Char → List Nat) (payload : List Nat) : Option ParsedTx := do
  let (cB, r1) ← rdStr payload
  let (nB, r2) ← rdStr r1
  let (pB, r3) ← rdStr r2
  let (fB, r4) ← rdStr r3
  let (gB, r5) ← rdStr r4
  let (toB, r6) ← rdStr r5
  let (vB, r7) ← rdStr r6
  let (dB, r8) ← rdStr r7
  if toB.length ≠ 20 then none
  else
    match r8 with
    | 192 :: r9 =>
      let base : ParsedTx :=
        { chainId := beToNat cB, nonce := beToNat nB,
          maxPriorityFeePerGas := beToNat pB, maxFeePerGas := beToNat fB,
          gasLimit := beToNat gB,
          «to» := ⟨'0' :: 'x' :: checksumBody k (bytesToLowerHex toB)⟩,
          value := beToNat vB, dataHex := ⟨'0' :: 'x' :: bytesToLowerHex dB⟩,
          sig := none }
      if r9 = [] then some base
      else do
        let (yB, s1) ← rdStr r9
        let (rB, s2) ← rdStr s1
        let (sB, s3) ← rdStr s2
        if s3 ≠ [] then none
        else some { base with sig := some (beToNat rB, beToNat sB, beToNat yB) }
    | _ => none

/-- Model of `Transaction.from` on serialized bytes: strips the `0x02`
envelope, decodes the RLP list, and reads the field items. -/
def parseTransaction (k : List Char → List Nat) (s : String) : Option ParsedTx :=
  if s.data.take 2 = ['0', 'x'] ∧ (s.data.drop 2).all isHexDigitCh ∧
      (s.data.drop 2).length % 2 = 0 then
    match hexPairsToBytes (s.data.drop 2) with
    | 2 :: rest =>
      match rdListHdr rest with
      | none => none
      | some (payload, after) =>
        if after ≠ [] then none
        else parsePayload k payload
    | _ => none
  else none

/-! ### External-call environment and trace -/

/-- One call to an external service. Routes return the exact list of
calls they performed, in order. -/
inductive ExtCall
  | dbGetUserWallet (userId : String)
  | paraGetWallet (walletId : String)
  | paraSignRaw (walletId dataHex : String)
  | rpcGetTransactionCount (address : String)
  | rpcGetFeeData
  | rpcBroadcast (signedHex : String)
  | rpcWaitForTransaction (txHash : String)
  | rpcGetBalance (address : String)
deriving DecidableEq

/-- Chain (JSON-RPC) calls, as opposed to database or custody-provider
calls. -/
def ExtCall.isChainRpc : ExtCall → Bool
  | rpcGetTransactionCount _ => true
  | rpcGetFeeData => true
  | rpcBroadcast _ => true
  | rpcWaitForTransaction _ => true
  | rpcGetBalance _ => true
  | _ => false

/-- Responses of the external services, together with the keccak oracle
of the address library and the configured chain id
(`config.ethereum.chainId`). -/
structure Env where
  keccak : List Char → List Nat
  chainId : Int
  getUserWallet : String → Except String (Option UserWallet)
  paraGetWallet : String → Except String ParaWallet
  paraSignRaw : String → String → Except String ParaSignResponse
  getTransactionCount : String → Except String Nat
  getFeeData : Except String FeeData
  broadcastTransaction : String → Except String String
  waitForTransaction : String → Except String (Option TransactionReceipt)
  getBalance : String → Except String Nat

/-! ### Service layer: `paraService` and `blockchainService` -/

/-- `paraService.getWallet`: fetch a wallet, wrapping transport errors. -/
def getWalletSvc (env : Env) (walletId : String) :
    Except String ParaWallet × List ExtCall :=
  (match env.paraGetWallet walletId with
   | .ok w => .ok w
   | .error e => .error ("Failed to fetch wallet " ++ walletId ++ ": " ++ e),
   [ExtCall.paraGetWallet walletId])

/-- `blockchainService.getNonce`: checksum the address, then read the
chain's current transaction count for it. -/
def getNonceSvc (env : Env) (address : String) : Except String Nat × List ExtCall :=
  match getAddress env.keccak address.data with
  | none => (.error "Failed to fetch nonce: invalid address", [])
  | some ca =>
    (match env.getTransactionCount ⟨ca⟩ with
     | .ok n => .ok n
     | .error e => .error ("Failed to fetch nonce: " ++ e),
     [ExtCall.rpcGetTransactionCount ⟨ca⟩])

/-- `blockchainService.getGasPrices`: read the provider's fee data and
render both fee components as strings; fails if either is null. -/
def getGasPricesSvc (env : Env) : Except String (String × String) × List ExtCall :=
  (match env.getFeeData with
   | .error e => .error ("Failed to fetch gas prices: " ++ e)
   | .ok fd =>
     match fd.maxFeePerGas, fd.maxPriorityFeePerGas with
     | some f, some p => .ok (⟨intDec f⟩, ⟨intDec p⟩)
     | _, _ => .error "Failed to fetch gas prices: Could not fetch fee data from provider",
   [ExtCall.rpcGetFeeData])

/-- The EIP-1559 transaction object literal assembled by
`buildUnsignedTransaction` (`type: 2`, `data: "0x"`, chain id from the
configuration, no signature). -/
def builtTx (env : Env) (checksumTo checksumFrom : List Char) (value gasLimit : Int)
    (nonce : Nat) (maxFeePerGas maxPriorityFeePerGas : Int) : TxRecord :=
  { type := 2, «to» := ⟨checksumTo⟩, «from» := ⟨checksumFrom⟩, value := value,
    data := "0x", gasLimit := gasLimit, nonce := nonce, maxFeePerGas := maxFeePerGas,
    maxPriorityFeePerGas := maxPriorityFeePerGas, chainId := env.chainId,
    signature := none }

/-- `blockchainService.buildUnsignedTransaction`: checksum both
addresses, fetch nonce and fee data, apply caller gas overrides (a
present, non-empty override string is truthy and wins; the gas limit
default is the constant `21000`), convert the decimal amount exactly,
assemble the EIP-1559 transaction object, and serialize it unsigned.
Any failure is wrapped as `Failed to build transaction: ...`. -/
def buildUnsignedTransaction (env : Env) (fromAddress : String)
    (request : SendTransactionRequest) :
    Except String (TxRecord × String) × List ExtCall :=
  match getAddress env.keccak fromAddress.data with
  | none => (.error "Failed to build transaction: invalid address", [])
  | some checksumFrom =>
  match getAddress env.keccak request.«to».data with
  | none => (.error "Failed to build transaction: invalid address", [])
  | some checksumTo =>
  match getNonceSvc env ⟨checksumFrom⟩ with
  | (.error e, tr1) => (.error ("Failed to build transaction: " ++ e), tr1)
  | (.ok nonce, tr1) =>
  match getGasPricesSvc env with
  | (.error e, tr2) => (.error ("Failed to build transaction: " ++ e), tr1 ++ tr2)
  | (.ok gasPrices, tr2) =>
  match (match request.gasLimit with
         | some s2 => if s2 ≠ "" then jsBigInt s2 else some 21000
         | none => some 21000) with
  | none => (.error "Failed to build transaction: cannot convert gasLimit to a BigInt",
      tr1 ++ tr2)
  | some gasLimit =>
  match (match request.maxFeePerGas with
         | some s2 => if s2 ≠ "" then jsBigInt s2 else jsBigInt gasPrices.1
         | none => jsBigInt gasPrices.1) with
  | none => (.error "Failed to build transaction: cannot convert maxFeePerGas to a BigInt",
      tr1 ++ tr2)
  | some maxFeePerGas =>
  match (match request.maxPriorityFeePerGas with
         | some s2 => if s2 ≠ "" then jsBigInt s2 else jsBigInt gasPrices.2
         | none => jsBigInt gasPrices.2) with
  | none => (.error
      "Failed to build transaction: cannot convert maxPriorityFeePerGas to a BigInt",
      tr1 ++ tr2)
  | some maxPriorityFeePerGas =>
  match parseEther request.amount with
  | none => (.error "Failed to build transaction: invalid FixedNumber string value",
      tr1 ++ tr2)
  | some value =>
    match serializeTransaction
        (builtTx env checksumTo checksumFrom value gasLimit nonce maxFeePerGas
          maxPriorityFeePerGas) with
    | none => (.error "Failed to build transaction: could not serialize transaction",
        tr1 ++ tr2)
    | some serialized =>
      (.ok (builtTx env checksumTo checksumFrom value gasLimit nonce maxFeePerGas
        maxPriorityFeePerGas, serialized), tr1 ++ tr2)

/-- `blockchainService.serializeWithSignature`: prefix the signature with
`0x` if needed, attach it to the transaction object, and serialize. -/
def serializeWithSignature (transaction : TxRecord) (signature : String) : Option String :=
  serializeTransaction { transaction with
    signature := some (if signature.data.take 2 = ['0', 'x'] then signature
      else "0x" ++ signature) }

/-- `paraService.signRaw`: hex-prefix the payload and ask the custody
provider for a signature over it. -/
def signRawSvc (env : Env) (walletId dataHash : String) :
    Except String ParaSignResponse × List ExtCall :=
  (match env.paraSignRaw walletId
      (if dataHash.data.take 2 = ['0', 'x'] then dataHash else "0x" ++ dataHash) with
   | .ok r2 => .ok r2
   | .error e => .error ("Failed to sign transaction: " ++ e),
   [ExtCall.paraSignRaw walletId
     (if dataHash.data.take 2 = ['0', 'x'] then dataHash else "0x" ++ dataHash)])

/-- `blockchainService.broadcastTransaction`. -/
def broadcastTransactionSvc (env : Env) (signedTransaction : String) :
    Except String String × List ExtCall :=
  (match env.broadcastTransaction signedTransaction with
   | .ok h2 => .ok h2
   | .error e => .error ("Failed to broadcast transaction: " ++ e),
   [ExtCall.rpcBroadcast signedTransaction])

/-- `blockchainService.getBalance`: checksum the address, read the wei
balance, return it as a decimal string. -/
def getBalanceSvc (env : Env) (address : String) : Except String String × List ExtCall :=
  match getAddress env.keccak address.data with
  | none => (.error "Failed to fetch balance: invalid address", [])
  | some ca =>
    (match env.getBalance ⟨ca⟩ with
     | .ok w => .ok ⟨natDec w⟩
     | .error e => .error ("Failed to fetch balance: " ++ e),
     [ExtCall.rpcGetBalance ⟨ca⟩])

/-- `blockchainService.getBalanceInEth`: the wei balance string divided
by `10^18` with bigint (truncating) division, rendered as a string. -/
def getBalanceInEthSvc (env : Env) (address : String) :
    Except String String × List ExtCall :=
  match getBalanceSvc env address with
  | (.error e, tr) => (.error e, tr)
  | (.ok balanceWei, tr) =>
    match jsBigInt balanceWei with
    | none => (.error "Cannot convert balance to a BigInt", tr)
    | some w => (.ok ⟨intDec (w / 10 ^ 18)⟩, tr)

/-- `paraService.pollWalletReady` loop body: at most `remaining` further
fetches, counting the fetches performed. -/
def pollAux (getW : Nat → Except String ParaWallet) (timeoutErr : String) :
    Nat → Nat → Except String ParaWallet × Nat
  | _, 0 => (.error timeoutErr, 0)
  | attempt, remaining + 1 =>
    match getW attempt with
    | .error e => (.error e, 1)
    | .ok w =>
      if w.status = "ready" then (.ok w, 1)
      else
        let next := pollAux getW timeoutErr (attempt + 1) remaining
        (next.1, next.2 + 1)

/-- `paraService.pollWalletReady(walletId, maxAttempts, delayMs)`:
repeatedly fetch the wallet (the result of the `i`-th fetch is
`fetch i`), return it as soon as its status is `ready`, throw the
timeout error once `maxAttempts` fetches have all reported non-ready; a
fetch failure propagates out of the loop wrapped by `getWallet`. The
inter-attempt sleep (`delayMs`) has no observable effect here. -/
def pollWalletReady (fetch : Nat → Except String ParaWallet) (walletId : String)
    (maxAttempts : Nat) (_delayMs : Nat) : Except String ParaWallet × Nat :=
  pollAux
    (fun i => match fetch i with
      | .ok w => .ok w
      | .error e => .error ("Failed to fetch wallet " ++ walletId ++ ": " ++ e))
    ("Wallet " ++ walletId ++ " did not become ready after " ++
      String.mk (natDec maxAttempts) ++ " attempts")
    0 maxAttempts

/-! ### Startup configuration (`src/config/index.ts`) -/

/-- Model of JavaScript `parseInt` on the strings the config reads:
optional sign, then leading decimal digits; no digits is `NaN`,
modelled as `none`. -/
def jsParseInt (s : String) : Option Int :=
  match s.data with
  | '-' :: rest =>
    if rest.takeWhile isDigitCh = [] then none
    else some (-(decDigitsVal (rest.takeWhile isDigitCh) : Int))
  | '+' :: rest =>
    if rest.takeWhile isDigitCh = [] then none
    else some ((decDigitsVal (rest.takeWhile isDigitCh) : Int))
  | cs =>
    if cs.takeWhile isDigitCh = [] then none
    else some ((decDigitsVal (cs.takeWhile isDigitCh) : Int))

/-- The process configuration object (fields read with a non-null
assertion in the source stay optional here, since the assertion has no
runtime effect; `port` and `chainId` are `parseInt` results and may be
`NaN`). -/
structure Config where
  port : Option Int
  nodeEnv : String
  supabaseUrl : Option String
  supabaseAnonKey : Option String
  supabaseServiceRoleKey : Option String
  supabaseJwtSecret : Option String
  paraApiKey : Option String
  paraBaseUrl : String
  rpcUrl : Option String
  chainId : Option Int
deriving DecidableEq

/-- The environment variables whose absence makes startup throw. -/
def requiredVars : List String :=
  ["SUPABASE_URL", "SUPABASE_ANON_KEY", "SUPABASE_SERVICE_ROLE_KEY",
   "SUPABASE_JWT_SECRET", "PARA_API_KEY", "SEPOLIA_RPC_URL"]

/-- Loading `src/config/index.ts`: build the config with its defaults,
then throw on the first member of `requiredVars` missing from the
process environment. -/
def loadConfig (env : String → Option String) : Except String Config :=
  match requiredVars.find? (fun v => (env v).isNone) with
  | some v => .error ("Missing required environment variable: " ++ v)
  | none => .ok
      { port := jsParseInt ((env "PORT").getD "3000"),
        nodeEnv := (env "NODE_ENV").getD "development",
        supabaseUrl := env "SUPABASE_URL",
        supabaseAnonKey := env "SUPABASE_ANON_KEY",
        supabaseServiceRoleKey := env "SUPABASE_SERVICE_ROLE_KEY",
        supabaseJwtSecret := env "SUPABASE_JWT_SECRET",
        paraApiKey := env "PARA_API_KEY",
        paraBaseUrl := (env "PARA_BASE_URL").getD "https://api.getpara.com",
        rpcUrl := env "SEPOLIA_RPC_URL",
        chainId := jsParseInt ((env "SEPOLIA_CHAIN_ID").getD "11155111") }

/-! ### Route handlers -/

/-- The possible responses of `POST /transaction/send`, one constructor
per return site of the handler. -/
inductive SendResponse
  | unauthorized
  | missingFields
  | invalidAddress
  | walletNotFound
  | walletNotReady
  | txFailed (message : String)
  | success (transactionHash fromAddress toAddress value : String)
deriving DecidableEq

/-- HTTP status code of each send response. -/
def SendResponse.httpStatus : SendResponse → Nat
  | unauthorized => 401
  | missingFields => 400
  | invalidAddress => 400
  | walletNotFound => 404
  | walletNotReady => 400
  | txFailed _ => 500
  | success .. => 201

/-- The `error` field of each send response body (`none` on success). -/
def SendResponse.errorLabel : SendResponse → Option String
  | unauthorized => some "Unauthorized"
  | missingFields => some "Bad Request"
  | invalidAddress => some "Bad Request"
  | walletNotFound => some "Not Found"
  | walletNotReady => some "Wallet Not Ready"
  | txFailed _ => some "Transaction Failed"
  | success .. => none

/-- The `POST /transaction/send` handler. `userId` is the id the auth
middleware put on the request (`none` when absent). A `to`/`amount`
missing from the JSON body is the falsy `""`. The wallet-readiness
check is the source's `status !== "ready" || !paraWallet.address`. -/
def sendRoute (env : Env) (userId : Option String) (req : SendTransactionRequest) :
    SendResponse × List ExtCall :=
  match userId with
  | none => (.unauthorized, [])
  | some uid =>
    if req.«to» = "" ∨ req.amount = "" then (.missingFields, [])
    else
      match getAddress env.keccak req.«to».data with
      | none => (.invalidAddress, [])
      | some _ =>
        match env.getUserWallet uid with
        | .error e => (.txFailed ("Failed to fetch user wallet: " ++ e),
            [ExtCall.dbGetUserWallet uid])
        | .ok none => (.walletNotFound, [ExtCall.dbGetUserWallet uid])
        | .ok (some userWallet) =>
          match (getWalletSvc env userWallet.para_wallet_id).1 with
          | .error e => (.txFailed e,
              [ExtCall.dbGetUserWallet uid, ExtCall.paraGetWallet userWallet.para_wallet_id])
          | .ok paraWallet =>
            match paraWallet.address with
            | none => (.walletNotReady,
                [ExtCall.dbGetUserWallet uid,
                 ExtCall.paraGetWallet userWallet.para_wallet_id])
            | some addr =>
              if paraWallet.status ≠ "ready" ∨ addr = "" then
                (.walletNotReady,
                 [ExtCall.dbGetUserWallet uid,
                  ExtCall.paraGetWallet userWallet.para_wallet_id])
              else
                match buildUnsignedTransaction env addr req with
                | (.error e, trB) => (.txFailed e,
                    [ExtCall.dbGetUserWallet uid,
                     ExtCall.paraGetWallet userWallet.para_wallet_id] ++ trB)
                | (.ok (transaction, dataHash), trB) =>
                  match signRawSvc env userWallet.para_wallet_id dataHash with
                  | (.error e, trS) => (.txFailed e,
                      [ExtCall.dbGetUserWallet uid,
                       ExtCall.paraGetWallet userWallet.para_wallet_id] ++ trB ++ trS)
                  | (.ok signResponse, trS) =>
                    match serializeWithSignature transaction signResponse.signature with
                    | none => (.txFailed "Failed to serialize signed transaction",
                        [ExtCall.dbGetUserWallet uid,
                         ExtCall.paraGetWallet userWallet.para_wallet_id] ++ trB ++ trS)
                    | some signedTx =>
                      match broadcastTransactionSvc env signedTx with
                      | (.error e, trX) => (.txFailed e,
                          [ExtCall.dbGetUserWallet uid,
                           ExtCall.paraGetWallet userWallet.para_wallet_id] ++
                            trB ++ trS ++ trX)
                      | (.ok txHash, trX) =>
                        (.success txHash addr req.«to» req.amount,
                         [ExtCall.dbGetUserWallet uid,
                          ExtCall.paraGetWallet userWallet.para_wallet_id] ++
                           trB ++ trS ++ trX)

/-- The possible responses of `GET /transaction/:txHash`, one
constructor per return site: `invalidHash` is the 400 shape rejection;
`notFound` is the null-receipt 404 (`Transaction not found or not yet
mined`); `notMined` is the 404 of the inner catch (`Transaction not yet
mined or invalid hash`). -/
inductive TxStatusResponse
  | invalidHash
  | notFound
  | notMined
  | found (transactionHash : String) (blockNumber : Nat) (blockHash : String)
      (status : String) (gasUsed : String) (gasPrice : Option String)
      (fromAddress : String) (toAddress : Option String) (value : String)
deriving DecidableEq

/-- HTTP status code of each transaction-status response. -/
def TxStatusResponse.httpStatus : TxStatusResponse → Nat
  | invalidHash => 400
  | notFound => 404
  | notMined => 404
  | found .. => 200

/-- The `GET /transaction/:txHash` handler: the shape check is only the
`0x` prefix and total length 66; a conforming hash is looked up, a null
receipt (or a query error) is a 404, and a receipt is reported with
`status` of `"success"` exactly when the receipt status code is 1. -/
def txStatusRoute (env : Env) (txHash : String) : TxStatusResponse × List ExtCall :=
  if ¬txHash.data.take 2 = ['0', 'x'] ∨ txHash.length ≠ 66 then (.invalidHash, [])
  else
    match env.waitForTransaction txHash with
    | .error _ => (.notMined, [ExtCall.rpcWaitForTransaction txHash])
    | .ok none => (.notFound, [ExtCall.rpcWaitForTransaction txHash])
    | .ok (some receipt) =>
      (.found receipt.hash receipt.blockNumber receipt.blockHash
        (if receipt.status = some 1 then "success" else "failed")
        ⟨natDec receipt.gasUsed⟩ (receipt.gasPrice.map fun g => ⟨natDec g⟩)
        receipt.«from» receipt.«to»
        (match receipt.value with
         | some v => ⟨natDec v⟩
         | none => "0"),
       [ExtCall.rpcWaitForTransaction txHash])

/-- Balance object of the wallet-details response. -/
structure WalletBalanceBody where
  wei : String
  eth : String
deriving DecidableEq

/-- The possible responses of `GET /wallet`. -/
inductive WalletResponse
  | unauthorized
  | notFound
  | serverError (message : String)
  | ok (id : String) (walletType : String) (status : String) (address : Option String)
      (publicKey : Option String) (balance : Option WalletBalanceBody) (createdAt : String)
deriving DecidableEq

/-- JavaScript `x || null` on an optional string: the empty string is
falsy and becomes null. -/
def optOrNull : Option String → Option String
  | none => none
  | some a => if a = "" then none else some a

/-- The `GET /wallet` handler: resolve the mapping, fetch the Para
wallet, and when it is ready with a (truthy) address also fetch the wei
balance and its ETH rendering. -/
def walletRoute (env : Env) (userId : Option String) : WalletResponse × List ExtCall :=
  match userId with
  | none => (.unauthorized, [])
  | some uid =>
    match env.getUserWallet uid with
    | .error e => (.serverError ("Failed to fetch user wallet: " ++ e),
        [ExtCall.dbGetUserWallet uid])
    | .ok none => (.notFound, [ExtCall.dbGetUserWallet uid])
    | .ok (some userWallet) =>
      match (getWalletSvc env userWallet.para_wallet_id).1 with
      | .error e => (.serverError e,
          [ExtCall.dbGetUserWallet uid, ExtCall.paraGetWallet userWallet.para_wallet_id])
      | .ok paraWallet =>
        match paraWallet.address with
        | none =>
          (.ok paraWallet.id paraWallet.type paraWallet.status none
            (optOrNull paraWallet.publicKey) none paraWallet.createdAt,
           [ExtCall.dbGetUserWallet uid, ExtCall.paraGetWallet userWallet.para_wallet_id])
        | some addr =>
          if paraWallet.status = "ready" ∧ addr ≠ "" then
            match getBalanceSvc env addr with
            | (.error e, trB) => (.serverError e,
                [ExtCall.dbGetUserWallet uid,
                 ExtCall.paraGetWallet userWallet.para_wallet_id] ++ trB)
            | (.ok balanceWei, trB) =>
              match getBalanceInEthSvc env addr with
              | (.error e, trE) => (.serverError e,
                  [ExtCall.dbGetUserWallet uid,
                   ExtCall.paraGetWallet userWallet.para_wallet_id] ++ trB ++ trE)
              | (.ok balanceEth, trE) =>
                (.ok paraWallet.id paraWallet.type paraWallet.status
                  (optOrNull (some addr)) (optOrNull paraWallet.publicKey)
                  (some ⟨balanceWei, balanceEth⟩) paraWallet.createdAt,
                 [ExtCall.dbGetUserWallet uid,
                  ExtCall.paraGetWallet userWallet.para_wallet_id] ++ trB ++ trE)
          else
            (.ok paraWallet.id paraWallet.type paraWallet.status (optOrNull (some addr))
              (optOrNull paraWallet.publicKey) none paraWallet.createdAt,
             [ExtCall.dbGetUserWallet uid, ExtCall.paraGetWallet userWallet.para_wallet_id])

/-! ### Concrete fixtures -/

/-- Keccak oracle returning no bytes: every digest nibble reads as `0`,
so checksummed casing is all-lowercase. -/
def kZero : List Char → List Nat := fun _ => []

/-- A well-formed all-lowercase address (accepted with no checksum
enforcement, and its own checksummed form under `kZero`). -/
def lowAddr : String := "0x8ba1f109551bd432803012645ac136ddd64dba72"

/-- A 65-byte signature string: `r` of repeated `aa`, `s` of repeated
`bb`, `v = 0x1b = 27`. -/
def sigFix : String :=
  ⟨'0' :: 'x' :: (List.replicate 64 'a' ++ List.replicate 64 'b' ++ ['1', 'b'])⟩

def uwFix : UserWallet :=
  { supabase_id := "u1", para_wallet_id := "w1", wallet_address := some lowAddr }

def pwReady : ParaWallet :=
  { id := "w1", type := "EVM", status := "ready", address := some lowAddr,
    publicKey := some "pk", createdAt := "t0" }

def pwCreating : ParaWallet := { pwReady with status := "creating" }

def feeFix : FeeData :=
  { gasPrice := some 10, maxFeePerGas := some 77, maxPriorityFeePerGas := some 33 }

/-- Environment in which every external call succeeds; the signer echoes
a `data` field the route never reads. -/
def envOk : Env :=
  { keccak := kZero, chainId := 11155111,
    getUserWallet := fun _ => .ok (some uwFix),
    paraGetWallet := fun _ => .ok pwReady,
    paraSignRaw := fun _ _ => .ok { signature := sigFix, data := "signer echo, unused" },
    getTransactionCount := fun _ => .ok 5,
    getFeeData := .ok feeFix,
    broadcastTransaction := fun _ => .ok "0xhash",
    waitForTransaction := fun _ => .ok none,
    getBalance := fun _ => .ok 1500000000000000000 }

/-- `envOk` with a custody wallet still being created. -/
def envNotReady : Env := { envOk with paraGetWallet := fun _ => .ok pwCreating }

/-- Request fixture: `0.001` ETH to the lowercase fixture address, no
gas overrides. -/
def reqFix : SendTransactionRequest := { «to» := lowAddr, amount := "0.001" }

/-- The transaction `buildUnsignedTransaction` assembles in `envOk` for
`reqFix`. -/
def txFix : TxRecord :=
  { type := 2, «to» := lowAddr, «from» := lowAddr, value := 1000000000000000,
    data := "0x", gasLimit := 21000, nonce := 5, maxFeePerGas := 77,
    maxPriorityFeePerGas := 33, chainId := 11155111, signature := none }

/-- `txFix` serialized unsigned. -/
def dhFix : String := (serializeTransaction txFix).getD ""

/-- `txFix` serialized with `sigFix` attached. -/
def outFix : String := (serializeWithSignature txFix sigFix).getD ""

/-- Trace of a successful build: nonce lookup then fee lookup. -/
def trFix : List ExtCall := [ExtCall.rpcGetTransactionCount lowAddr, ExtCall.rpcGetFeeData]

/-- A shape-conforming but non-hexadecimal transaction hash. -/
def zHash : String := ⟨'0' :: 'x' :: List.replicate 64 'z'⟩

/-- A well-formed transaction hash. -/
def aHash : String := ⟨'0' :: 'x' :: List.replicate 64 'a'⟩

/-- Environment fixture holding exactly the six required variables. -/
def envC9 : String → Option String := fun v => if v ∈ requiredVars then some "x" else none

theorem beBytesAux_zero (f : Nat) : beBytesAux f 0 = [] := by
  cases f <;> simp [beBytesAux]

theorem beBytesAux_congr : ∀ f1 f2 n, n ≤ f1 → n ≤ f2 →
    beBytesAux f1 n = beBytesAux f2 n := by
  intro f1
  induction f1 with
  | zero =>
    intro f2 n h1 _
    have : n = 0 := Nat.le_zero.mp h1
    subst this
    rw [beBytesAux_zero, beBytesAux_zero]
  | succ f ih =>
    intro f2 n h1 h2
    by_cases hn : n = 0
    · subst hn; rw [beBytesAux_zero, beBytesAux_zero]
    · cases f2 with
      | zero => omega
      | succ g =>
        simp only [beBytesAux, if_neg hn]
        have hd : n / 256 < n := Nat.div_lt_self (Nat.pos_of_ne_zero hn) (by norm_num)
        rw [ih g (n / 256) (by omega) (by omega)]

theorem beBytes_eq (n : Nat) :
    beBytes n = if n = 0 then [] else beBytes (n / 256) ++ [n % 256] := by
  by_cases hn : n = 0
  · subst hn; rfl
  · rw [if_neg hn]
    unfold beBytes
    cases n with
    | zero => simp at hn
    | succ m =>
      simp only [beBytesAux, if_neg hn]
      have hd : (m + 1) / 256 < m + 1 :=
        Nat.div_lt_self (Nat.succ_pos m) (by norm_num)
      rw [beBytesAux_congr m ((m + 1) / 256) ((m + 1) / 256) (by omega) (by omega)]

theorem beToNat_foldl (bs : List Nat) (a : Nat) :
    bs.foldl (fun x b => x * 256 + b) a = a * 256 ^ bs.length + beToNat bs := by
  induction bs generalizing a with
  | nil => simp [beToNat]
  | cons b t ih =>
    simp only [List.foldl_cons, List.length_cons, beToNat]
    rw [ih, ih (0 * 256 + b)]
    ring

/-- Round trip: reading back the minimal big-endian bytes of `n` gives `n`. -/
theorem beToNat_beBytes (n : Nat) : beToNat (beBytes n) = n := by
  induction n using Nat.strong_induction_on with
  | _ n ih =>
    rw [beBytes_eq]
    by_cases hn : n = 0
    · simp [hn, beToNat]
    · rw [if_neg hn]
      have hd : n / 256 < n := Nat.div_lt_self (Nat.pos_of_ne_zero hn) (by norm_num)
      simp only [beToNat, List.foldl_append, List.foldl_cons, List.foldl_nil]
      have h2 := ih (n / 256) hd
      simp only [beToNat] at h2
      rw [h2]
      omega

theorem beBytes_len_le : ∀ k n, n < 256 ^ k → (beBytes n).length ≤ k := by
  intro k
  induction k with
  | zero =>
    intro n h
    have h0 : n = 0 := by
      have := h
      simp [pow_zero] at this
      omega
    simp [h0, beBytes_eq]
  | succ k ih =>
    intro n h
    rw [beBytes_eq]
    by_cases hn : n = 0
    · simp [hn]
    · rw [if_neg hn]
      have hlt : n / 256 < 256 ^ k := by
        rw [Nat.div_lt_iff_lt_mul (by norm_num : 0 < 256)]
        calc n < 256 ^ (k + 1) := h
          _ = 256 ^ k * 256 := by rw [pow_succ]
      have := ih (n / 256) hlt
      simp [List.length_append]
      omega

theorem beBytes_bytes_lt (n : Nat) : ∀ b ∈ beBytes n, b < 256 := by
  induction n using Nat.strong_induction_on with
  | _ n ih =>
    rw [beBytes_eq]
    by_cases hn : n = 0
    · simp [hn]
    · rw [if_neg hn]
      intro b hb
      rcases List.mem_append.mp hb with h | h
      · exact ih (n / 256) (Nat.div_lt_self (Nat.pos_of_ne_zero hn) (by norm_num)) b h
      · simp at h
        subst h
        exact Nat.mod_lt _ (by norm_num)

theorem natDecAux_congr : ∀ f1 f2 n, n < f1 → n < f2 →
    natDecAux f1 n = natDecAux f2 n := by
  intro f1
  induction f1 with
  | zero => omega
  | succ f ih =>
    intro f2 n h1 h2
    cases f2 with
    | zero => omega
    | succ g =>
      by_cases hn : n < 10
      · simp [natDecAux, hn]
      · simp only [natDecAux, if_neg hn]
        have hd : n / 10 < n := Nat.div_lt_self (by omega) (by norm_num)
        rw [ih g (n / 10) (by omega) (by omega)]

theorem natDec_eq (n : Nat) :
    natDec n = if n < 10 then [Char.ofNat (48 + n)]
      else natDec (n / 10) ++ [Char.ofNat (48 + n % 10)] := by
  by_cases hn : n < 10
  · simp [natDec, natDecAux, hn]
  · rw [if_neg hn]
    conv_lhs => unfold natDec
    simp only [natDecAux, if_neg hn]
    have hd : n / 10 < n := Nat.div_lt_self (by omega) (by norm_num)
    rw [natDecAux_congr n (n / 10 + 1) (n / 10) (by omega) (by omega)]
    rfl

theorem toNat_ofNat_of_lt (n : Nat) (h : n < 55296) : (Char.ofNat n).toNat = n := by
  unfold Char.ofNat
  rw [dif_pos (Or.inl h)]
  simp [Char.ofNatAux, Char.toNat, UInt32.toNat, BitVec.toNat_ofNatLt]

theorem decDigitsVal_foldl (cs : List Char) (a : Nat) :
    cs.foldl (fun x c => x * 10 + (c.toNat - 48)) a =
      a * 10 ^ cs.length + decDigitsVal cs := by
  induction cs generalizing a with
  | nil => simp [decDigitsVal]
  | cons c t ih =>
    simp only [List.foldl_cons, List.length_cons, decDigitsVal]
    rw [ih, ih (0 * 10 + (c.toNat - 48))]
    ring

/-- Round trip: the decimal rendering of `n` reads back as `n`. -/
theorem decDigitsVal_natDec (n : Nat) : decDigitsVal (natDec n) = n := by
  induction n using Nat.strong_induction_on with
  | _ n ih =>
    rw [natDec_eq]
    by_cases hn : n < 10
    · rw [if_pos hn]
      simp only [decDigitsVal, List.foldl_cons, List.foldl_nil]
      rw [toNat_ofNat_of_lt (48 + n) (by omega)]
      omega
    · rw [if_neg hn]
      have hd : n / 10 < n := Nat.div_lt_self (by omega) (by norm_num)
      simp only [decDigitsVal, List.foldl_append, List.foldl_cons, List.foldl_nil]
      have h2 := ih (n / 10) hd
      simp only [decDigitsVal] at h2
      rw [h2, toNat_ofNat_of_lt (48 + n % 10) (by omega)]
      have := Nat.mod_lt n (show 0 < 10 by norm_num)
      omega

/-- The decimal rendering consists of digit characters only. -/
theorem natDec_digits (n : Nat) : ∀ c ∈ natDec n, 48 ≤ c.toNat ∧ c.toNat ≤ 57 := by
  induction n using Nat.strong_induction_on with
  | _ n ih =>
    rw [natDec_eq]
    by_cases hn : n < 10
    · simp only [if_pos hn, List.mem_singleton]
      intro c hc
      subst hc
      rw [toNat_ofNat_of_lt (48 + n) (by omega)]
      omega
    · rw [if_neg hn]
      intro c hc
      rcases List.mem_append.mp hc with h | h
      · exact ih (n / 10) (Nat.div_lt_self (by omega) (by norm_num)) c h
      · simp at h
        subst h
        rw [toNat_ofNat_of_lt (48 + n % 10) (by omega)]
        have := Nat.mod_lt n (show 0 < 10 by norm_num)
        omega

/-- The decimal rendering is never empty. -/
theorem natDec_ne_nil (n : Nat) : natDec n ≠ [] := by
  rw [natDec_eq]
  by_cases hn : n < 10 <;> simp [hn]

theorem hexValCode_lt (n : Nat) : hexValCode n < 16 := by
  unfold hexValCode
  split_ifs <;> omega

theorem hexPairsToBytes_lt (cs : List Char) : ∀ b ∈ hexPairsToBytes cs, b < 256 := by
  induction cs using hexPairsToBytes.induct with
  | case1 c1 c2 rest ih =>
    intro b hb
    simp only [hexPairsToBytes, List.mem_cons] at hb
    rcases hb with h | h
    · have h1 := hexValCode_lt c1.toNat
      have h2 := hexValCode_lt c2.toNat
      simp only [h, hexVal]
      omega
    · exact ih b h
  | case2 cs h => simp [hexPairsToBytes, List.length_nil] at *

theorem toNat_asciiToLower (c : Char) :
    (asciiToLower c).toNat = if 65 ≤ c.toNat ∧ c.toNat ≤ 90 then c.toNat + 32 else c.toNat := by
  unfold asciiToLower
  split_ifs with h
  · exact toNat_ofNat_of_lt _ (by omega)
  · rfl

theorem toNat_asciiToUpper (c : Char) :
    (asciiToUpper c).toNat =
      if 97 ≤ c.toNat ∧ c.toNat ≤ 122 then c.toNat - 32 else c.toNat := by
  unfold asciiToUpper
  split_ifs with h
  · exact toNat_ofNat_of_lt _ (by omega)
  · rfl

theorem hexVal_asciiToLower (c : Char) : hexVal (asciiToLower c) = hexVal c := by
  unfold hexVal hexValCode
  rw [toNat_asciiToLower]
  split_ifs <;> omega

theorem hexVal_asciiToUpper (c : Char) : hexVal (asciiToUpper c) = hexVal c := by
  unfold hexVal hexValCode
  rw [toNat_asciiToUpper]
  split_ifs <;> omega

theorem isHex_asciiToLower (c : Char) :
    isHexDigitCh (asciiToLower c) = isHexDigitCh c := by
  unfold isHexDigitCh
  rw [toNat_asciiToLower]
  split_ifs with h <;> simp only [decide_eq_decide] <;> omega

theorem isLowerHex_asciiToLower (c : Char) (h : isHexDigitCh c = true) :
    isLowerHexCh (asciiToLower c) = true := by
  unfold isHexDigitCh at h
  unfold isLowerHexCh
  rw [toNat_asciiToLower]
  simp only [decide_eq_true_eq] at *
  split_ifs with hc <;> omega

theorem asciiToLower_of_lower (c : Char) (h : isLowerHexCh c = true) :
    asciiToLower c = c := by
  unfold isLowerHexCh at h
  unfold asciiToLower
  simp only [decide_eq_true_eq] at h
  rw [if_neg (by omega)]

/-- A lowercase hex character is recovered from its value. -/
theorem lowerHexChar_hexVal (c : Char) (h : isLowerHexCh c = true) :
    lowerHexChar (hexVal c) = c := by
  unfold isLowerHexCh at h
  simp only [decide_eq_true_eq] at h
  have hcode : lowerHexCode (hexValCode c.toNat) = c.toNat := by
    unfold lowerHexCode hexValCode
    split_ifs <;> omega
  unfold lowerHexChar hexVal
  rw [hcode, Char.ofNat_toNat]

theorem hexVal_lowerHexChar (d : Nat) (h : d < 16) : hexVal (lowerHexChar d) = d := by
  revert d
  decide

theorem isLowerHex_lowerHexChar (d : Nat) (h : d < 16) :
    isLowerHexCh (lowerHexChar d) = true := by
  revert d
  decide

theorem bytesToLowerHex_cons (b : Nat) (t : List Nat) :
    bytesToLowerHex (b :: t) = byteToLowerHex b ++ bytesToLowerHex t := by
  simp [bytesToLowerHex]

/-- Reading a byte string back from its lowercase hex rendering. -/
theorem hexPairs_bytesToLowerHex (bs : List Nat) (h : ∀ b ∈ bs, b < 256) :
    hexPairsToBytes (bytesToLowerHex bs) = bs := by
  induction bs with
  | nil => rfl
  | cons b t ih =>
    have hb : b < 256 := h b (List.mem_cons_self b t)
    rw [bytesToLowerHex_cons]
    simp only [byteToLowerHex, List.cons_append, List.nil_append, hexPairsToBytes]
    rw [hexVal_lowerHexChar (b / 16) (by omega), hexVal_lowerHexChar (b % 16) (by omega)]
    have hbm : b / 16 * 16 + b % 16 = b := by omega
    have hnil : ([] : List Char).append (bytesToLowerHex t) = bytesToLowerHex t := rfl
    rw [hbm, hnil, ih (fun x hx => h x (List.mem_cons_of_mem b hx))]

/-- Rendering the bytes of an even-length lowercase hex string gives the
string back. -/
theorem bytesToLowerHex_hexPairs (cs : List Char) (hl : cs.length % 2 = 0)
    (hx : ∀ c ∈ cs, isLowerHexCh c = true) :
    bytesToLowerHex (hexPairsToBytes cs) = cs := by
  induction cs using hexPairsToBytes.induct with
  | case1 c1 c2 rest ih =>
    simp only [hexPairsToBytes]
    rw [bytesToLowerHex_cons]
    have h1 : isLowerHexCh c1 = true := hx c1 (by simp)
    have h2 : isLowerHexCh c2 = true := hx c2 (by simp)
    have v1 := hexValCode_lt c1.toNat
    have v2 := hexValCode_lt c2.toNat
    have e1 : (hexVal c1 * 16 + hexVal c2) / 16 = hexVal c1 := by
      unfold hexVal
      omega
    have e2 : (hexVal c1 * 16 + hexVal c2) % 16 = hexVal c2 := by
      unfold hexVal
      omega
    simp only [byteToLowerHex, e1, e2, lowerHexChar_hexVal c1 h1, lowerHexChar_hexVal c2 h2,
      List.cons_append, List.nil_append]
    rw [ih (by simp only [List.length_cons] at hl; omega) (fun c hc => hx c (by simp [hc]))]
  | case2 cs h =>
    cases cs with
    | nil => rfl
    | cons c rest =>
      cases rest with
      | nil => simp at hl
      | cons c2 r2 => exact absurd rfl (h c c2 r2)

theorem csAux_length (hs : List Nat) : ∀ i ls, (csAux hs i ls).length = ls.length := by
  intro i ls
  induction ls generalizing i with
  | nil => rfl
  | cons c t ih => simp [csAux, ih]

theorem isHex_asciiToUpper (c : Char) :
    isHexDigitCh (asciiToUpper c) = isHexDigitCh c := by
  unfold isHexDigitCh
  rw [toNat_asciiToUpper]
  split_ifs with h <;> simp only [decide_eq_decide] <;> omega

theorem csAux_map_hexVal (hs : List Nat) :
    ∀ i ls, (csAux hs i ls).map hexVal = ls.map hexVal := by
  intro i ls
  induction ls generalizing i with
  | nil => rfl
  | cons c t ih =>
    simp only [csAux, List.map_cons, ih]
    congr 1
    split_ifs
    · exact hexVal_asciiToUpper c
    · rfl

theorem csAux_all_hex (hs : List Nat) :
    ∀ i ls, (∀ c ∈ ls, isHexDigitCh c = true) →
      ∀ c ∈ csAux hs i ls, isHexDigitCh c = true := by
  intro i ls
  induction ls generalizing i with
  | nil => simp [csAux]
  | cons c t ih =>
    intro hall d hd
    simp only [csAux, List.mem_cons] at hd
    rcases hd with h | h
    · subst h
      split_ifs with hsplit
      · rw [isHex_asciiToUpper]
        exact hall c (by simp)
      · exact hall c (by simp)
    · exact ih (i + 1) (fun x hx => hall x (by simp [hx])) d h

theorem hexPairs_congr (cs1 cs2 : List Char) (h : cs1.map hexVal = cs2.map hexVal) :
    hexPairsToBytes cs1 = hexPairsToBytes cs2 := by
  induction cs1 using hexPairsToBytes.induct generalizing cs2 with
  | case1 c1 c2 rest ih =>
    cases cs2 with
    | nil => simp at h
    | cons d1 t2 =>
      cases t2 with
      | nil => simp at h
      | cons d2 rest2 =>
        simp only [List.map_cons, List.cons.injEq] at h
        obtain ⟨h1, h2, h3⟩ := h
        simp only [hexPairsToBytes, h1, h2, ih rest2 h3]
  | case2 cs hno =>
    cases cs with
    | nil =>
      cases cs2 with
      | nil => rfl
      | cons d t => simp at h
    | cons c rest =>
      cases rest with
      | nil =>
        cases cs2 with
        | nil => simp at h
        | cons d t =>
          cases t with
          | nil => rfl
          | cons d2 t2 => simp at h
      | cons c2 r2 => exact absurd rfl (hno c c2 r2)

theorem map_asciiToLower_of_lower (ls : List Char) (h : ∀ c ∈ ls, isLowerHexCh c = true) :
    ls.map asciiToLower = ls := by
  induction ls with
  | nil => rfl
  | cons c t ih =>
    simp only [List.map_cons]
    rw [asciiToLower_of_lower c (h c (by simp)), ih (fun x hx => h x (by simp [hx]))]

/-- A checksummed lowercase body is a fixed point of re-checksumming its
byte rendering: the normalization a parser applies to a serialized `to`
address reproduces the address the builder used. -/
theorem checksummed_fix (k : List Char → List Nat) (lb : List Char)
    (hlb : ∀ c ∈ lb, isLowerHexCh c = true) (hlen : lb.length % 2 = 0) :
    checksumBody k (bytesToLowerHex (hexPairsToBytes (csAux (k lb) 0 lb))) =
      csAux (k lb) 0 lb := by
  have h1 : hexPairsToBytes (csAux (k lb) 0 lb) = hexPairsToBytes lb :=
    hexPairs_congr _ _ (csAux_map_hexVal (k lb) 0 lb)
  rw [h1, bytesToLowerHex_hexPairs lb hlen hlb]
  unfold checksumBody
  rw [map_asciiToLower_of_lower lb hlb]

theorem natHexAux_congr : ∀ f1 f2 n, n < f1 → n < f2 →
    natHexAux f1 n = natHexAux f2 n := by
  intro f1
  induction f1 with
  | zero => omega
  | succ f ih =>
    intro f2 n h1 h2
    cases f2 with
    | zero => omega
    | succ g =>
      by_cases hn : n < 16
      · simp [natHexAux, hn]
      · simp only [natHexAux, if_neg hn]
        have hd : n / 16 < n := Nat.div_lt_self (by omega) (by norm_num)
        rw [ih g (n / 16) (by omega) (by omega)]

theorem natHex_eq (n : Nat) :
    natHex n = if n < 16 then [lowerHexChar n]
      else natHex (n / 16) ++ [lowerHexChar (n % 16)] := by
  by_cases hn : n < 16
  · simp [natHex, natHexAux, hn]
  · rw [if_neg hn]
    conv_lhs => unfold natHex
    simp only [natHexAux, if_neg hn]
    have hd : n / 16 < n := Nat.div_lt_self (by omega) (by norm_num)
    rw [natHexAux_congr n (n / 16 + 1) (n / 16) (by omega) (by omega)]
    rfl

theorem natHex_lower (n : Nat) : ∀ c ∈ natHex n, isLowerHexCh c = true := by
  induction n using Nat.strong_induction_on with
  | _ n ih =>
    rw [natHex_eq]
    by_cases hn : n < 16
    · simp only [if_pos hn, List.mem_singleton]
      intro c hc
      subst hc
      exact isLowerHex_lowerHexChar n hn
    · rw [if_neg hn]
      intro c hc
      rcases List.mem_append.mp hc with h | h
      · exact ih (n / 16) (Nat.div_lt_self (by omega) (by norm_num)) c h
      · simp at h
        subst h
        exact isLowerHex_lowerHexChar (n % 16) (Nat.mod_lt _ (by norm_num))

theorem hexPad40_lower (n : Nat) : ∀ c ∈ hexPad40 n, isLowerHexCh c = true := by
  intro c hc
  unfold hexPad40 at hc
  rcases List.mem_append.mp hc with h | h
  · have := List.eq_of_mem_replicate h
    subst this
    decide
  · exact natHex_lower n c h

/-- Every accepted address is `0x` followed by the checksummed casing of a
lowercase hexadecimal body. -/
theorem getAddress_some_shape (k : List Char → List Nat) (cs a : List Char)
    (h : getAddress k cs = some a) :
    ∃ lb, (∀ c ∈ lb, isLowerHexCh c = true) ∧ a = '0' :: 'x' :: csAux (k lb) 0 lb := by
  unfold getAddress at h
  by_cases h1 : (if cs.take 2 = ['0', 'x'] then cs.drop 2 else cs).length = 40 ∧
      (if cs.take 2 = ['0', 'x'] then cs.drop 2 else cs).all isHexDigitCh
  · rw [if_pos h1] at h
    set body := if cs.take 2 = ['0', 'x'] then cs.drop 2 else cs with hbody
    by_cases hc : (('0' :: 'x' :: body).any isUpperHexLetter = true ∧
        ('0' :: 'x' :: body).any isLowerHexLetter = true) ∧
        '0' :: 'x' :: checksumBody k body ≠ '0' :: 'x' :: body
    · rw [if_pos hc] at h
      exact absurd h (by simp)
    · rw [if_neg hc] at h
      refine ⟨body.map asciiToLower, ?_, ?_⟩
      · intro c hc
        obtain ⟨d, hd, hdc⟩ := List.mem_map.mp hc
        subst hdc
        exact isLowerHex_asciiToLower d (by
          have := h1.2
          rw [List.all_eq_true] at this
          exact this d hd)
      · have := Option.some.inj h
        subst this
        rfl
  · rw [if_neg h1] at h
    split_ifs at h with h2 h3
    · refine ⟨(hexPad40 (base36Val (cs.drop 4))).map asciiToLower, ?_, ?_⟩
      · intro c hc
        obtain ⟨d, hd, hdc⟩ := List.mem_map.mp hc
        subst hdc
        have hl := hexPad40_lower (base36Val (cs.drop 4)) d hd
        rw [asciiToLower_of_lower d hl]
        exact hl
      · have := Option.some.inj h
        subst this
        rfl

theorem beBytes_ne_nil (n : Nat) (h : n ≠ 0) : beBytes n ≠ [] := by
  rw [beBytes_eq, if_neg h]
  simp

/-- Decoding an encoded short string item returns it and the tail. -/
theorem rdStr_rlpStr (bs rest : List Nat) (h : bs.length ≤ 55) :
    rdStr (rlpStr bs ++ rest) = some (bs, rest) := by
  unfold rlpStr
  by_cases h1 : bs.length = 1 ∧ bs.getD 0 0 < 128
  · rw [if_pos h1]
    match bs, h1 with
    | [b], ⟨_, hb⟩ =>
      simp only [List.getD, List.get?] at hb
      simp only [List.cons_append, rdStr]
      rw [if_pos (by simpa using hb)]
      simp
  · rw [if_neg h1, if_pos h]
    simp only [List.cons_append, rdStr]
    rw [if_neg (by omega), if_pos (by omega)]
    have hlen : 128 + bs.length - 128 = bs.length := by omega
    rw [hlen]
    rw [if_neg (by simp only [List.length_append]; omega)]
    rw [List.take_left, List.drop_left]

/-- Decoding an encoded list header returns the payload and the tail. -/
theorem rdListHdr_rlpListWrap (p rest : List Nat) (hp : p.length < 2 ^ 64) :
    rdListHdr (rlpListWrap p ++ rest) = some (p, rest) := by
  unfold rlpListWrap
  by_cases h1 : p.length ≤ 55
  · rw [if_pos h1]
    simp only [List.cons_append, rdListHdr]
    rw [if_neg (by omega), if_pos (by omega)]
    have hlen : 192 + p.length - 192 = p.length := by omega
    rw [hlen]
    rw [if_neg (by simp only [List.length_append]; omega)]
    rw [List.take_left, List.drop_left]
  · rw [if_neg h1]
    have hll : (beBytes p.length).length ≤ 8 := by
      apply beBytes_len_le
      calc p.length < 2 ^ 64 := hp
        _ = 256 ^ 8 := by norm_num
    have hne : beBytes p.length ≠ [] := beBytes_ne_nil _ (by omega)
    have hpos : 1 ≤ (beBytes p.length).length := by
      cases hb : beBytes p.length with
      | nil => exact absurd hb hne
      | cons x t => simp
    simp only [List.cons_append, rdListHdr]
    rw [if_neg (by omega), if_neg (by omega)]
    have hlen : 247 + (beBytes p.length).length - 247 = (beBytes p.length).length := by omega
    rw [hlen, List.append_assoc]
    rw [if_neg (by simp only [List.length_append]; omega)]
    rw [List.take_left, List.drop_left, beToNat_beBytes]
    rw [if_neg (by simp only [List.length_append]; omega)]
    rw [List.take_left, List.drop_left]

theorem rlpStr_bytes_lt (bs : List Nat) (hb : ∀ b ∈ bs, b < 256) (h : bs.length ≤ 55) :
    ∀ b ∈ rlpStr bs, b < 256 := by
  unfold rlpStr
  split_ifs with h1 h2
  · exact hb
  · intro b hbm
    rcases List.mem_cons.mp hbm with h | h
    · omega
    · exact hb b h

theorem rlpNat_bytes_lt (n : Nat) (h : n < 256 ^ 55) : ∀ b ∈ rlpNat n, b < 256 := by
  apply rlpStr_bytes_lt
  · exact beBytes_bytes_lt n
  · exact beBytes_len_le 55 n h

theorem rlpListWrap_bytes_lt (p : List Nat) (hb : ∀ b ∈ p, b < 256)
    (h : p.length < 2 ^ 64) : ∀ b ∈ rlpListWrap p, b < 256 := by
  unfold rlpListWrap
  have hll : (beBytes p.length).length ≤ 8 := by
    apply beBytes_len_le
    calc p.length < 2 ^ 64 := h
      _ = 256 ^ 8 := by norm_num
  split_ifs with h1
  · intro b hbm
    rcases List.mem_cons.mp hbm with hx | hx
    · omega
    · exact hb b hx
  · intro b hbm
    rcases List.mem_cons.mp hbm with hx | hx
    · omega
    · rcases List.mem_append.mp hx with hy | hy
      · exact beBytes_bytes_lt _ b hy
      · exact hb b hy

theorem hexPairs_length (cs : List Char) :
    (hexPairsToBytes cs).length = cs.length / 2 := by
  induction cs using hexPairsToBytes.induct with
  | case1 c1 c2 rest ih =>
    simp only [hexPairsToBytes, List.length_cons, ih]
    omega
  | case2 cs h =>
    cases cs with
    | nil => rfl
    | cons c rest =>
      cases rest with
      | nil => simp [hexPairsToBytes]
      | cons c2 r2 => exact absurd rfl (h c c2 r2)

theorem bytesToLowerHex_length (bs : List Nat) :
    (bytesToLowerHex bs).length = 2 * bs.length := by
  induction bs with
  | nil => rfl
  | cons b t ih =>
    rw [bytesToLowerHex_cons]
    simp only [byteToLowerHex, List.length_append, List.length_cons, ih]
    simp
    omega

theorem isHexDigitCh_of_lower (c : Char) (h : isLowerHexCh c = true) :
    isHexDigitCh c = true := by
  unfold isLowerHexCh at h
  unfold isHexDigitCh
  simp only [decide_eq_true_eq] at *
  omega

theorem bytesToLowerHex_lower (bs : List Nat) (h : ∀ b ∈ bs, b < 256) :
    ∀ c ∈ bytesToLowerHex bs, isLowerHexCh c = true := by
  induction bs with
  | nil => simp [bytesToLowerHex]
  | cons b t ih =>
    rw [bytesToLowerHex_cons]
    intro c hc
    have hb : b < 256 := h b (by simp)
    rcases List.mem_append.mp hc with hx | hx
    · simp only [byteToLowerHex, List.mem_cons, List.mem_singleton] at hx
      rcases hx with h1 | h1 | h1
      · subst h1; exact isLowerHex_lowerHexChar _ (by omega)
      · subst h1; exact isLowerHex_lowerHexChar _ (Nat.mod_lt _ (by norm_num))
      · simp at h1
    · exact ih (fun x hx2 => h x (by simp [hx2])) c hx

theorem hexDigitsVal_foldl (cs : List Char) (a : Nat) :
    cs.foldl (fun x c => x * 16 + hexVal c) a = a * 16 ^ cs.length + hexDigitsVal cs := by
  induction cs generalizing a with
  | nil => simp [hexDigitsVal]
  | cons c t ih =>
    simp only [List.foldl_cons, List.length_cons, hexDigitsVal]
    rw [ih, ih (0 * 16 + hexVal c)]
    ring

theorem hexDigitsVal_lt (cs : List Char) : hexDigitsVal cs < 16 ^ cs.length := by
  induction cs with
  | nil => simp [hexDigitsVal]
  | cons c t ih =>
    simp only [hexDigitsVal, List.foldl_cons, List.length_cons]
    rw [hexDigitsVal_foldl]
    have hv : hexVal c < 16 := hexValCode_lt c.toNat
    have hpow : (16 : Nat) ^ (t.length + 1) = 16 ^ t.length * 16 := by ring
    rw [hpow]
    have ih2 : hexDigitsVal t < 16 ^ t.length := ih
    have hmul : hexVal c * 16 ^ t.length ≤ 15 * 16 ^ t.length :=
      Nat.mul_le_mul_right _ (by omega)
    have hzero : (0 * 16 + hexVal c) * 16 ^ t.length = hexVal c * 16 ^ t.length := by ring
    rw [hzero]
    omega

theorem natDec_all_digits (n : Nat) : (natDec n).all isDigitCh = true := by
  rw [List.all_eq_true]
  intro c hc
  have := natDec_digits n c hc
  simp [isDigitCh]
  omega

theorem parseBigIntDigits_natDec (n : Nat) : parseBigIntDigits (natDec n) = some n := by
  unfold parseBigIntDigits
  rw [if_pos ⟨natDec_ne_nil n, natDec_all_digits n⟩, decDigitsVal_natDec]

theorem natDec_not_0x (n : Nat) :
    ¬((natDec n).take 2 = ['0', 'x'] ∨ (natDec n).take 2 = ['0', 'X']) := by
  intro h
  rcases h with h | h
  · have hx : 'x' ∈ (natDec n).take 2 := by rw [h]; simp
    have := natDec_digits n 'x' (List.mem_of_mem_take hx)
    revert this
    decide
  · have hx : 'X' ∈ (natDec n).take 2 := by rw [h]; simp
    have := natDec_digits n 'X' (List.mem_of_mem_take hx)
    revert this
    decide

/-- The decimal rendering of a bigint parses back through `BigInt(...)`:
the fee strings built by `getGasPrices` re-parse to the provider's values. -/
theorem jsBigInt_intDec (i : Int) : jsBigInt ⟨intDec i⟩ = some i := by
  unfold jsBigInt intDec
  by_cases hneg : i < 0
  · rw [if_pos hneg]
    have hdata : (String.mk ('-' :: natDec i.natAbs)).data = '-' :: natDec i.natAbs := rfl
    rw [hdata]
    rw [if_neg (by simp)]
    rw [if_pos (by simp)]
    simp only [List.drop_succ_cons, List.drop_zero, parseBigIntDigits_natDec]
    simp [Int.natCast_natAbs, abs_of_neg hneg]
  · rw [if_neg hneg]
    have hdata : (String.mk (natDec i.toNat)).data = natDec i.toNat := rfl
    rw [hdata]
    have hne := natDec_ne_nil i.toNat
    have hlen : 0 < (natDec i.toNat).length := List.length_pos.mpr hne
    have hhd : 48 ≤ ((natDec i.toNat).getD 0 ' ').toNat ∧
        ((natDec i.toNat).getD 0 ' ').toNat ≤ 57 := by
      apply natDec_digits
      rw [List.getD_eq_getElem _ _ hlen]
      exact (natDec i.toNat).getElem_mem hlen
    rw [if_neg hne]
    rw [if_neg (fun h => by rw [h] at hhd; revert hhd; decide)]
    rw [if_neg (fun h => by rw [h] at hhd; revert hhd; decide)]
    rw [if_neg (natDec_not_0x i.toNat)]
    rw [parseBigIntDigits_natDec]
    simp [Int.toNat_of_nonneg (le_of_not_lt hneg)]

theorem rdStr_rlpNat (n : Nat) (rest : List Nat) (h : n < 2 ^ 256) :
    rdStr (rlpNat n ++ rest) = some (beBytes n, rest) := by
  apply rdStr_rlpStr
  have : (2 : Nat) ^ 256 = 256 ^ 32 := by norm_num
  exact le_trans (beBytes_len_le 32 n (by omega)) (by norm_num)

theorem rlpStr_length_le (bs : List Nat) (h : bs.length ≤ 55) :
    (rlpStr bs).length ≤ bs.length + 1 := by
  unfold rlpStr
  split_ifs with h1 h2
  · omega
  · simp

theorem rlpNat_length_le (n : Nat) (h : n < 2 ^ 256) : (rlpNat n).length ≤ 33 := by
  have hb : (beBytes n).length ≤ 32 := beBytes_len_le 32 n (by norm_num at h ⊢; omega)
  have := rlpStr_length_le (beBytes n) (by omega)
  unfold rlpNat
  omega

theorem rlpStr_ne_nil (bs : List Nat) : rlpStr bs ≠ [] := by
  unfold rlpStr
  split_ifs with h1 h2
  · match bs, h1 with
    | [b], _ => simp
  · simp
  · simp

/-- Decoding an encoded unsigned field sequence yields the field view. -/
theorem parsePayload_enc_unsigned (k : List Char → List Nat)
    (cW nW pW fW gW vW : Nat) (toBytes dataB : List Nat)
    (hc : cW < 2 ^ 256) (hn : nW < 2 ^ 256) (hp : pW < 2 ^ 256) (hf : fW < 2 ^ 256)
    (hg : gW < 2 ^ 256) (hv : vW < 2 ^ 256) (hto : toBytes.length = 20)
    (hd : dataB.length ≤ 55) :
    parsePayload k (rlpNat cW ++ rlpNat nW ++ rlpNat pW ++ rlpNat fW ++ rlpNat gW ++
      rlpStr toBytes ++ rlpNat vW ++ rlpStr dataB ++ [192]) =
    some { chainId := cW, nonce := nW, maxPriorityFeePerGas := pW, maxFeePerGas := fW,
           gasLimit := gW, «to» := ⟨'0' :: 'x' :: checksumBody k (bytesToLowerHex toBytes)⟩,
           value := vW, dataHex := ⟨'0' :: 'x' :: bytesToLowerHex dataB⟩, sig := none } := by
  unfold parsePayload
  simp only [List.append_assoc]
  rw [rdStr_rlpNat cW _ hc]
  dsimp only [Option.bind_eq_bind, Option.some_bind]
  rw [rdStr_rlpNat nW _ hn]
  dsimp only [Option.bind_eq_bind, Option.some_bind]
  rw [rdStr_rlpNat pW _ hp]
  dsimp only [Option.bind_eq_bind, Option.some_bind]
  rw [rdStr_rlpNat fW _ hf]
  dsimp only [Option.bind_eq_bind, Option.some_bind]
  rw [rdStr_rlpNat gW _ hg]
  dsimp only [Option.bind_eq_bind, Option.some_bind]
  rw [rdStr_rlpStr toBytes _ (by omega)]
  dsimp only [Option.bind_eq_bind, Option.some_bind]
  rw [rdStr_rlpNat vW _ hv]
  dsimp only [Option.bind_eq_bind, Option.some_bind]
  rw [rdStr_rlpStr dataB _ hd]
  dsimp only [Option.bind_eq_bind, Option.some_bind]
  rw [if_neg (by omega)]
  rw [beToNat_beBytes, beToNat_beBytes, beToNat_beBytes, beToNat_beBytes, beToNat_beBytes,
    beToNat_beBytes]
  rfl

/-- Decoding an encoded signed field sequence yields the field view with
the `(r, s, yParity)` signature attached. -/
theorem parsePayload_enc_signed (k : List Char → List Nat)
    (cW nW pW fW gW vW yW rW sW : Nat) (toBytes dataB : List Nat)
    (hc : cW < 2 ^ 256) (hn : nW < 2 ^ 256) (hp : pW < 2 ^ 256) (hf : fW < 2 ^ 256)
    (hg : gW < 2 ^ 256) (hv : vW < 2 ^ 256) (hy : yW < 2 ^ 256) (hr : rW < 2 ^ 256)
    (hs : sW < 2 ^ 256) (hto : toBytes.length = 20) (hd : dataB.length ≤ 55) :
    parsePayload k (rlpNat cW ++ rlpNat nW ++ rlpNat pW ++ rlpNat fW ++ rlpNat gW ++
      rlpStr toBytes ++ rlpNat vW ++ rlpStr dataB ++ [192] ++
      rlpNat yW ++ rlpNat rW ++ rlpNat sW) =
    some { chainId := cW, nonce := nW, maxPriorityFeePerGas := pW, maxFeePerGas := fW,
           gasLimit := gW, «to» := ⟨'0' :: 'x' :: checksumBody k (bytesToLowerHex toBytes)⟩,
           value := vW, dataHex := ⟨'0' :: 'x' :: bytesToLowerHex dataB⟩,
           sig := some (rW, sW, yW) } := by
  unfold parsePayload
  simp only [List.append_assoc]
  rw [rdStr_rlpNat cW _ hc]
  dsimp only [Option.bind_eq_bind, Option.some_bind]
  rw [rdStr_rlpNat nW _ hn]
  dsimp only [Option.bind_eq_bind, Option.some_bind]
  rw [rdStr_rlpNat pW _ hp]
  dsimp only [Option.bind_eq_bind, Option.some_bind]
  rw [rdStr_rlpNat fW _ hf]
  dsimp only [Option.bind_eq_bind, Option.some_bind]
  rw [rdStr_rlpNat gW _ hg]
  dsimp only [Option.bind_eq_bind, Option.some_bind]
  rw [rdStr_rlpStr toBytes _ (by omega)]
  dsimp only [Option.bind_eq_bind, Option.some_bind]
  rw [rdStr_rlpNat vW _ hv]
  dsimp only [Option.bind_eq_bind, Option.some_bind]
  rw [rdStr_rlpStr dataB _ hd]
  dsimp only [Option.bind_eq_bind, Option.some_bind]
  rw [if_neg (by omega)]
  dsimp only [List.singleton_append]
  have hne9 : rlpNat yW ++ (rlpNat rW ++ rlpNat sW) ≠ [] := by
    intro hx
    exact rlpStr_ne_nil (beBytes yW) (List.append_eq_nil.mp hx).1
  rw [if_neg hne9]
  rw [rdStr_rlpNat yW _ hy]
  dsimp only [Option.bind_eq_bind, Option.some_bind]
  rw [rdStr_rlpNat rW _ hr]
  dsimp only [Option.bind_eq_bind, Option.some_bind]
  rw [← List.append_nil (rlpNat sW), rdStr_rlpNat sW _ hs]
  dsimp only [Option.bind_eq_bind, Option.some_bind]
  rw [if_neg (by simp)]
  rw [beToNat_beBytes, beToNat_beBytes, beToNat_beBytes, beToNat_beBytes, beToNat_beBytes,
    beToNat_beBytes, beToNat_beBytes, beToNat_beBytes, beToNat_beBytes]

theorem intWord_some {i : Int} {w : Nat} (h : intWord i = some w) :
    0 ≤ i ∧ i < 2 ^ 256 ∧ w = i.toNat := by
  unfold intWord at h
  split_ifs at h with hc
  exact ⟨hc.1, hc.2, (Option.some.inj h).symm⟩

theorem addressBodyOf_some {cs body : List Char} (h : addressBodyOf cs = some body) :
    cs = '0' :: 'x' :: body ∧ body.length = 40 ∧ body.all isHexDigitCh = true := by
  unfold addressBodyOf at h
  split_ifs at h with hc
  obtain ⟨h1, h2, h3⟩ := hc
  have hb := Option.some.inj h
  subst hb
  refine ⟨?_, h2, h3⟩
  conv_lhs => rw [← List.take_append_drop 2 cs]
  rw [h1]
  rfl

theorem rlpNat_bytes_lt256 (n : Nat) (h : n < 2 ^ 256) : ∀ b ∈ rlpNat n, b < 256 :=
  rlpNat_bytes_lt n (lt_of_lt_of_le h (by norm_num))

/-- Serializing an unsigned transaction whose `to` address came out of
`getAddress` and re-parsing the serialization yields exactly the fields
of the transaction. -/
theorem parse_serialize_unsigned (k : List Char → List Nat) (tx : TxRecord) (out : String)
    (hsig : tx.signature = none) (hdata : tx.data = "0x")
    (hto : ∃ src, getAddress k src = some tx.«to».data)
    (hser : serializeTransaction tx = some out) :
    parseTransaction k out = some
      { chainId := tx.chainId.toNat, nonce := tx.nonce,
        maxPriorityFeePerGas := tx.maxPriorityFeePerGas.toNat,
        maxFeePerGas := tx.maxFeePerGas.toNat, gasLimit := tx.gasLimit.toNat,
        «to» := tx.«to», value := tx.value.toNat, dataHex := "0x", sig := none } := by
  unfold serializeTransaction at hser
  split_ifs at hser with hcond
  obtain ⟨htype, hnonce⟩ := hcond
  cases hfi : txFieldItems tx with
  | none =>
    rw [hfi] at hser
    exact absurd hser (by simp)
  | some fields =>
    rw [hfi, hsig] at hser
    have hout : out = ⟨'0' :: 'x' :: bytesToLowerHex (2 :: rlpListWrap fields)⟩ :=
      (Option.some.inj hser).symm
    unfold txFieldItems at hfi
    simp only [Option.bind_eq_bind, Option.bind_eq_some, Option.pure_def,
      Option.some.injEq] at hfi
    obtain ⟨chainW, hcw, prioW, hpw, feeW, hfw, gasW, hgw, valW, hvw, toBody, htoB,
      dataB, hdB, hfields⟩ := hfi
    obtain ⟨hc0, hc1, hc2⟩ := intWord_some hcw
    obtain ⟨hp0, hp1, hp2⟩ := intWord_some hpw
    obtain ⟨hf0, hf1, hf2⟩ := intWord_some hfw
    obtain ⟨hg0, hg1, hg2⟩ := intWord_some hgw
    obtain ⟨hv0, hv1, hv2⟩ := intWord_some hvw
    obtain ⟨htoEq, htoLen, htoHex⟩ := addressBodyOf_some htoB
    have hdBnil : dataB = [] := by
      rw [hdata] at hdB
      have hd0x : dataBytesOf "0x".data = some [] := by decide
      rw [hd0x] at hdB
      exact (Option.some.inj hdB).symm
    subst hdBnil
    have hcN : chainW < 2 ^ 256 := by omega
    have hpN : prioW < 2 ^ 256 := by omega
    have hfN : feeW < 2 ^ 256 := by omega
    have hgN : gasW < 2 ^ 256 := by omega
    have hvN : valW < 2 ^ 256 := by omega
    have htoBytesLen : (hexPairsToBytes toBody).length = 20 := by
      rw [hexPairs_length, htoLen]
    have hFB : ∀ b ∈ fields, b < 256 := by
      rw [← hfields]
      intro b hb
      simp only [List.append_assoc, List.mem_append, List.mem_singleton] at hb
      rcases hb with h | h | h | h | h | h | h | h | h
      · exact rlpNat_bytes_lt256 chainW hcN b h
      · exact rlpNat_bytes_lt256 tx.nonce hnonce b h
      · exact rlpNat_bytes_lt256 prioW hpN b h
      · exact rlpNat_bytes_lt256 feeW hfN b h
      · exact rlpNat_bytes_lt256 gasW hgN b h
      · exact rlpStr_bytes_lt _ (hexPairsToBytes_lt toBody) (by omega) b h
      · exact rlpNat_bytes_lt256 valW hvN b h
      · exact rlpStr_bytes_lt [] (by simp) (by simp) b h
      · omega
    have hFL : fields.length < 2 ^ 64 := by
      have l1 := rlpNat_length_le chainW hcN
      have l2 := rlpNat_length_le tx.nonce hnonce
      have l3 := rlpNat_length_le prioW hpN
      have l4 := rlpNat_length_le feeW hfN
      have l5 := rlpNat_length_le gasW hgN
      have l6 := rlpStr_length_le (hexPairsToBytes toBody) (by omega)
      have l7 := rlpNat_length_le valW hvN
      have l8 := rlpStr_length_le ([] : List Nat) (by simp)
      rw [← hfields]
      simp only [List.length_append, List.length_singleton]
      simp only [List.length_nil] at l8
      omega
    have hbytesLt : ∀ b ∈ (2 :: rlpListWrap fields), b < 256 := by
      intro b hb
      rcases List.mem_cons.mp hb with h | h
      · omega
      · exact rlpListWrap_bytes_lt fields hFB hFL b h
    subst hout
    unfold parseTransaction
    have hdropEq : (String.mk ('0' :: 'x' :: bytesToLowerHex (2 :: rlpListWrap fields))).data.drop 2
        = bytesToLowerHex (2 :: rlpListWrap fields) := rfl
    rw [if_pos ⟨rfl, by
        rw [hdropEq, List.all_eq_true]
        intro c hc
        exact isHexDigitCh_of_lower c (bytesToLowerHex_lower _ hbytesLt c hc), by
        rw [hdropEq, bytesToLowerHex_length]
        omega⟩]
    rw [hdropEq, hexPairs_bytesToLowerHex _ hbytesLt]
    dsimp only
    have hhdr : rdListHdr (rlpListWrap fields) = some (fields, []) := by
      rw [show rlpListWrap fields = rlpListWrap fields ++ [] from (List.append_nil _).symm,
        rdListHdr_rlpListWrap fields [] hFL]
    rw [hhdr]
    dsimp only
    rw [if_neg (by simp)]
    rw [← hfields]
    rw [parsePayload_enc_unsigned k chainW tx.nonce prioW feeW gasW valW
      (hexPairsToBytes toBody) [] hcN hnonce hpN hfN hgN hvN htoBytesLen (by simp)]
    obtain ⟨src, hsrc⟩ := hto
    obtain ⟨lb, hlbLower, hshape⟩ := getAddress_some_shape k src _ hsrc
    have htoBody : toBody = csAux (k lb) 0 lb := by
      have h12 : ('0' : Char) :: 'x' :: toBody = '0' :: 'x' :: csAux (k lb) 0 lb := by
        rw [← htoEq, hshape]
      exact (List.cons.inj (List.cons.inj h12).2).2
    have hlbLen : lb.length % 2 = 0 := by
      have := csAux_length (k lb) 0 lb
      rw [← htoBody] at this
      omega
    have hfix := checksummed_fix k lb hlbLower hlbLen
    rw [htoBody, hfix]
    have htostr : (⟨'0' :: 'x' :: csAux (k lb) 0 lb⟩ : String) = tx.«to» := by
      rw [← hshape]
    rw [htostr, hc2, hp2, hf2, hg2, hv2]
    rfl

theorem hexDigitsVal_lt256 (cs : List Char) (h : cs.length ≤ 64) :
    hexDigitsVal cs < 2 ^ 256 := by
  calc hexDigitsVal cs < 16 ^ cs.length := hexDigitsVal_lt cs
    _ ≤ 16 ^ 64 := Nat.pow_le_pow_right (by norm_num) h
    _ = 2 ^ 256 := by norm_num

theorem splitSigChars_some {cs : List Char} {r s y : Nat}
    (h : splitSigChars cs = some (r, s, y)) :
    r < 2 ^ 256 ∧ s < 2 ^ 256 ∧ y < 2 ^ 256 := by
  unfold splitSigChars at h
  by_cases h1 : cs.take 2 = ['0', 'x'] ∧ (cs.drop 2).length = 130 ∧
      (cs.drop 2).all isHexDigitCh = true
  · rw [if_pos h1] at h
    have hrb : hexDigitsVal ((cs.drop 2).take 64) < 2 ^ 256 :=
      hexDigitsVal_lt256 _ (by simp [List.length_take])
    have hsb : hexDigitsVal (((cs.drop 2).drop 64).take 64) < 2 ^ 256 :=
      hexDigitsVal_lt256 _ (by simp [List.length_take])
    split_ifs at h with hv1 hv2
    · simp only [Option.some.injEq, Prod.mk.injEq] at h
      obtain ⟨hr2, hs2, hy2⟩ := h
      subst hr2
      subst hs2
      subst hy2
      exact ⟨hrb, hsb, by norm_num⟩
    · simp only [Option.some.injEq, Prod.mk.injEq] at h
      obtain ⟨hr2, hs2, hy2⟩ := h
      subst hr2
      subst hs2
      subst hy2
      exact ⟨hrb, hsb, by norm_num⟩
  · rw [if_neg h1] at h
    exact absurd h (by simp)

/-- Serializing a signed transaction and re-parsing the serialization
yields the fields of the transaction with the split signature attached. -/
theorem parse_serialize_signed (k : List Char → List Nat) (tx : TxRecord) (out sg : String)
    (rW sW yW : Nat)
    (hsig : tx.signature = some sg) (hdata : tx.data = "0x")
    (hto : ∃ src, getAddress k src = some tx.«to».data)
    (hsplit : splitSigChars sg.data = some (rW, sW, yW))
    (hser : serializeTransaction tx = some out) :
    parseTransaction k out = some
      { chainId := tx.chainId.toNat, nonce := tx.nonce,
        maxPriorityFeePerGas := tx.maxPriorityFeePerGas.toNat,
        maxFeePerGas := tx.maxFeePerGas.toNat, gasLimit := tx.gasLimit.toNat,
        «to» := tx.«to», value := tx.value.toNat, dataHex := "0x",
        sig := some (rW, sW, yW) } := by
  unfold serializeTransaction at hser
  split_ifs at hser with hcond
  obtain ⟨htype, hnonce⟩ := hcond
  cases hfi : txFieldItems tx with
  | none =>
    rw [hfi] at hser
    exact absurd hser (by simp)
  | some fields =>
    rw [hfi, hsig] at hser
    dsimp only at hser
    rw [hsplit] at hser
    dsimp only at hser
    have hout : out = ⟨'0' :: 'x' ::
        bytesToLowerHex (2 :: rlpListWrap (fields ++ rlpNat yW ++ rlpNat rW ++ rlpNat sW))⟩ :=
      (Option.some.inj hser).symm
    unfold txFieldItems at hfi
    simp only [Option.bind_eq_bind, Option.bind_eq_some, Option.pure_def,
      Option.some.injEq] at hfi
    obtain ⟨chainW, hcw, prioW, hpw, feeW, hfw, gasW, hgw, valW, hvw, toBody, htoB,
      dataB, hdB, hfields⟩ := hfi
    obtain ⟨hc0, hc1, hc2⟩ := intWord_some hcw
    obtain ⟨hp0, hp1, hp2⟩ := intWord_some hpw
    obtain ⟨hf0, hf1, hf2⟩ := intWord_some hfw
    obtain ⟨hg0, hg1, hg2⟩ := intWord_some hgw
    obtain ⟨hv0, hv1, hv2⟩ := intWord_some hvw
    obtain ⟨htoEq, htoLen, htoHex⟩ := addressBodyOf_some htoB
    obtain ⟨hrN, hsN, hyN⟩ := splitSigChars_some hsplit
    have hdBnil : dataB = [] := by
      rw [hdata] at hdB
      have hd0x : dataBytesOf "0x".data = some [] := by decide
      rw [hd0x] at hdB
      exact (Option.some.inj hdB).symm
    subst hdBnil
    have hcN : chainW < 2 ^ 256 := by omega
    have hpN : prioW < 2 ^ 256 := by omega
    have hfN : feeW < 2 ^ 256 := by omega
    have hgN : gasW < 2 ^ 256 := by omega
    have hvN : valW < 2 ^ 256 := by omega
    have htoBytesLen : (hexPairsToBytes toBody).length = 20 := by
      rw [hexPairs_length, htoLen]
    have hFB : ∀ b ∈ fields ++ rlpNat yW ++ rlpNat rW ++ rlpNat sW, b < 256 := by
      rw [← hfields]
      intro b hb
      simp only [List.append_assoc, List.mem_append, List.mem_singleton] at hb
      rcases hb with h | h | h | h | h | h | h | h | h | h | h | h
      · exact rlpNat_bytes_lt256 chainW hcN b h
      · exact rlpNat_bytes_lt256 tx.nonce hnonce b h
      · exact rlpNat_bytes_lt256 prioW hpN b h
      · exact rlpNat_bytes_lt256 feeW hfN b h
      · exact rlpNat_bytes_lt256 gasW hgN b h
      · exact rlpStr_bytes_lt _ (hexPairsToBytes_lt toBody) (by omega) b h
      · exact rlpNat_bytes_lt256 valW hvN b h
      · exact rlpStr_bytes_lt [] (by simp) (by simp) b h
      · omega
      · exact rlpNat_bytes_lt256 yW hyN b h
      · exact rlpNat_bytes_lt256 rW hrN b h
      · exact rlpNat_bytes_lt256 sW hsN b h
    have hFL : (fields ++ rlpNat yW ++ rlpNat rW ++ rlpNat sW).length < 2 ^ 64 := by
      have l1 := rlpNat_length_le chainW hcN
      have l2 := rlpNat_length_le tx.nonce hnonce
      have l3 := rlpNat_length_le prioW hpN
      have l4 := rlpNat_length_le feeW hfN
      have l5 := rlpNat_length_le gasW hgN
      have l6 := rlpStr_length_le (hexPairsToBytes toBody) (by omega)
      have l7 := rlpNat_length_le valW hvN
      have l8 := rlpStr_length_le ([] : List Nat) (by simp)
      have l9 := rlpNat_length_le yW hyN
      have l10 := rlpNat_length_le rW hrN
      have l11 := rlpNat_length_le sW hsN
      rw [← hfields]
      simp only [List.length_append, List.length_singleton]
      simp only [List.length_nil] at l8
      omega
    have hbytesLt : ∀ b ∈ (2 :: rlpListWrap (fields ++ rlpNat yW ++ rlpNat rW ++ rlpNat sW)),
        b < 256 := by
      intro b hb
      rcases List.mem_cons.mp hb with h | h
      · omega
      · exact rlpListWrap_bytes_lt _ hFB hFL b h
    subst hout
    unfold parseTransaction
    have hdropEq : (String.mk ('0' :: 'x' ::
        bytesToLowerHex (2 :: rlpListWrap (fields ++ rlpNat yW ++ rlpNat rW ++ rlpNat sW)))).data.drop 2
        = bytesToLowerHex (2 :: rlpListWrap (fields ++ rlpNat yW ++ rlpNat rW ++ rlpNat sW)) := rfl
    rw [if_pos ⟨rfl, by
        rw [hdropEq, List.all_eq_true]
        intro c hc
        exact isHexDigitCh_of_lower c (bytesToLowerHex_lower _ hbytesLt c hc), by
        rw [hdropEq, bytesToLowerHex_length]
        omega⟩]
    rw [hdropEq, hexPairs_bytesToLowerHex _ hbytesLt]
    dsimp only
    have hhdr : rdListHdr (rlpListWrap (fields ++ rlpNat yW ++ rlpNat rW ++ rlpNat sW)) =
        some (fields ++ rlpNat yW ++ rlpNat rW ++ rlpNat sW, []) := by
      rw [show rlpListWrap (fields ++ rlpNat yW ++ rlpNat rW ++ rlpNat sW) =
          rlpListWrap (fields ++ rlpNat yW ++ rlpNat rW ++ rlpNat sW) ++ []
          from (List.append_nil _).symm,
        rdListHdr_rlpListWrap _ [] hFL]
    rw [hhdr]
    dsimp only
    rw [if_neg (by simp)]
    rw [← hfields]
    rw [parsePayload_enc_signed k chainW tx.nonce prioW feeW gasW valW yW rW sW
      (hexPairsToBytes toBody) [] hcN hnonce hpN hfN hgN hvN hyN hrN hsN htoBytesLen (by simp)]
    obtain ⟨src, hsrc⟩ := hto
    obtain ⟨lb, hlbLower, hshape⟩ := getAddress_some_shape k src _ hsrc
    have htoBody : toBody = csAux (k lb) 0 lb := by
      have h12 : ('0' : Char) :: 'x' :: toBody = '0' :: 'x' :: csAux (k lb) 0 lb := by
        rw [← htoEq, hshape]
      exact (List.cons.inj (List.cons.inj h12).2).2
    have hlbLen : lb.length % 2 = 0 := by
      have := csAux_length (k lb) 0 lb
      rw [← htoBody] at this
      omega
    have hfix := checksummed_fix k lb hlbLower hlbLen
    rw [htoBody, hfix]
    have htostr : (⟨'0' :: 'x' :: csAux (k lb) 0 lb⟩ : String) = tx.«to» := by
      rw [← hshape]
    rw [htostr, hc2, hp2, hf2, hg2, hv2]
    rfl

/-! ### Inversion lemmas for the service layer -/

theorem getNonceSvc_ok {env : Env} {address : String} {n : Nat} {tr : List ExtCall}
    (h : getNonceSvc env address = (.ok n, tr)) :
    ∃ ca, getAddress env.keccak address.data = some ca ∧
      env.getTransactionCount ⟨ca⟩ = .ok n ∧
      tr = [ExtCall.rpcGetTransactionCount ⟨ca⟩] := by
  unfold getNonceSvc at h
  cases hga : getAddress env.keccak address.data with
  | none =>
    rw [hga] at h
    simp at h
  | some ca =>
    rw [hga] at h
    dsimp only at h
    refine ⟨ca, rfl, ?_⟩
    cases hgt : env.getTransactionCount ⟨ca⟩ with
    | ok m =>
      rw [hgt] at h
      simp only [Prod.mk.injEq, Except.ok.injEq] at h
      exact ⟨congrArg Except.ok h.1, h.2.symm⟩
    | error e =>
      rw [hgt] at h
      simp at h

theorem getGasPricesSvc_ok {env : Env} {gp : String × String} {tr : List ExtCall}
    (h : getGasPricesSvc env = (.ok gp, tr)) :
    ∃ fd f p, env.getFeeData = .ok fd ∧ fd.maxFeePerGas = some f ∧
      fd.maxPriorityFeePerGas = some p ∧ gp.1 = ⟨intDec f⟩ ∧ gp.2 = ⟨intDec p⟩ ∧
      tr = [ExtCall.rpcGetFeeData] := by
  unfold getGasPricesSvc at h
  cases hfd : env.getFeeData with
  | error e =>
    rw [hfd] at h
    simp at h
  | ok fd =>
    rw [hfd] at h
    dsimp only at h
    cases hf : fd.maxFeePerGas with
    | none =>
      cases hp : fd.maxPriorityFeePerGas with
      | none =>
        rw [hf, hp] at h
        simp at h
      | some p =>
        rw [hf, hp] at h
        simp at h
    | some f =>
      cases hp : fd.maxPriorityFeePerGas with
      | none =>
        rw [hf, hp] at h
        simp at h
      | some p =>
        rw [hf, hp] at h
        dsimp only at h
        simp only [Prod.mk.injEq, Except.ok.injEq] at h
        exact ⟨fd, f, p, rfl, hf, hp, by rw [← h.1], by rw [← h.1], h.2.symm⟩

/-- Everything a successful `buildUnsignedTransaction` guarantees about
the transaction it returns. -/
theorem buildUnsignedTransaction_ok {env : Env} {addr : String}
    {req : SendTransactionRequest} {tx : TxRecord} {dh : String} {tr : List ExtCall}
    (h : buildUnsignedTransaction env addr req = (.ok (tx, dh), tr)) :
    tx.type = 2 ∧ tx.signature = none ∧ tx.data = "0x" ∧ tx.chainId = env.chainId ∧
    serializeTransaction tx = some dh ∧
    (∃ ct, getAddress env.keccak req.«to».data = some ct ∧ tx.«to» = ⟨ct⟩) ∧
    (∃ cf, getAddress env.keccak addr.data = some cf ∧ tx.«from» = ⟨cf⟩ ∧
      (getNonceSvc env ⟨cf⟩).1 = .ok tx.nonce) ∧
    (∃ gp trG, getGasPricesSvc env = (.ok gp, trG) ∧
      (match req.gasLimit with
       | some s2 => if s2 ≠ "" then jsBigInt s2 = some tx.gasLimit else tx.gasLimit = 21000
       | none => tx.gasLimit = 21000) ∧
      (match req.maxFeePerGas with
       | some s2 => if s2 ≠ "" then jsBigInt s2 = some tx.maxFeePerGas
         else jsBigInt gp.1 = some tx.maxFeePerGas
       | none => jsBigInt gp.1 = some tx.maxFeePerGas) ∧
      (match req.maxPriorityFeePerGas with
       | some s2 => if s2 ≠ "" then jsBigInt s2 = some tx.maxPriorityFeePerGas
         else jsBigInt gp.2 = some tx.maxPriorityFeePerGas
       | none => jsBigInt gp.2 = some tx.maxPriorityFeePerGas)) ∧
    parseEther req.amount = some tx.value := by
  unfold buildUnsignedTransaction at h
  cases hcf : getAddress env.keccak addr.data with
  | none => rw [hcf] at h; simp at h
  | some checksumFrom =>
  rw [hcf] at h
  dsimp only at h
  cases hct : getAddress env.keccak req.«to».data with
  | none => rw [hct] at h; simp at h
  | some checksumTo =>
  rw [hct] at h
  dsimp only at h
  cases hns : getNonceSvc env ⟨checksumFrom⟩ with
  | mk nsRes tr1 =>
  rw [hns] at h
  cases nsRes with
  | error e => simp at h
  | ok nonce =>
  dsimp only at h
  cases hgp : getGasPricesSvc env with
  | mk gpRes tr2 =>
  rw [hgp] at h
  cases gpRes with
  | error e => simp at h
  | ok gasPrices =>
  dsimp only at h
  cases hgl : (match req.gasLimit with
      | some s2 => if s2 ≠ "" then jsBigInt s2 else some 21000
      | none => some 21000) with
  | none => rw [hgl] at h; simp at h
  | some gasLimit =>
  rw [hgl] at h
  dsimp only at h
  cases hmf : (match req.maxFeePerGas with
      | some s2 => if s2 ≠ "" then jsBigInt s2 else jsBigInt gasPrices.1
      | none => jsBigInt gasPrices.1) with
  | none => rw [hmf] at h; simp at h
  | some maxFeePerGas =>
  rw [hmf] at h
  dsimp only at h
  cases hmp : (match req.maxPriorityFeePerGas with
      | some s2 => if s2 ≠ "" then jsBigInt s2 else jsBigInt gasPrices.2
      | none => jsBigInt gasPrices.2) with
  | none => rw [hmp] at h; simp at h
  | some maxPriorityFeePerGas =>
  rw [hmp] at h
  dsimp only at h
  cases hpe : parseEther req.amount with
  | none => rw [hpe] at h; simp at h
  | some value =>
  rw [hpe] at h
  dsimp only at h
  cases hser : serializeTransaction (builtTx env checksumTo checksumFrom value gasLimit nonce maxFeePerGas maxPriorityFeePerGas) with
  | none => rw [hser] at h; simp at h
  | some serialized =>
  rw [hser] at h
  simp only [Prod.mk.injEq, Except.ok.injEq] at h
  obtain ⟨⟨htx, hdh⟩, htr⟩ := h
  subst htx
  subst hdh
  refine ⟨rfl, rfl, rfl, rfl, hser, ⟨checksumTo, rfl, rfl⟩,
    ⟨checksumFrom, rfl, rfl, by rw [hns]; try rfl⟩, ⟨gasPrices, tr2, rfl, ?_, ?_, ?_⟩,
    by exact rfl⟩
  · cases hg2 : req.gasLimit with
    | none =>
      rw [hg2] at hgl
      dsimp only at hgl ⊢
      exact (Option.some.inj hgl).symm
    | some s2 =>
      rw [hg2] at hgl
      dsimp only at hgl ⊢
      by_cases hs2 : s2 ≠ ""
      · rw [if_pos hs2] at hgl
        rw [if_pos hs2]
        exact hgl
      · rw [if_neg hs2] at hgl
        rw [if_neg hs2]
        exact (Option.some.inj hgl).symm
  · cases hg2 : req.maxFeePerGas with
    | none =>
      rw [hg2] at hmf
      dsimp only at hmf ⊢
      exact hmf
    | some s2 =>
      rw [hg2] at hmf
      dsimp only at hmf ⊢
      by_cases hs2 : s2 ≠ ""
      · rw [if_pos hs2] at hmf
        rw [if_pos hs2]
        exact hmf
      · rw [if_neg hs2] at hmf
        rw [if_neg hs2]
        exact hmf
  · cases hg2 : req.maxPriorityFeePerGas with
    | none =>
      rw [hg2] at hmp
      dsimp only at hmp ⊢
      exact hmp
    | some s2 =>
      rw [hg2] at hmp
      dsimp only at hmp ⊢
      by_cases hs2 : s2 ≠ ""
      · rw [if_pos hs2] at hmp
        rw [if_pos hs2]
        exact hmp
      · rw [if_neg hs2] at hmp
        rw [if_neg hs2]
        exact hmp

theorem getWalletSvc_fst (env : Env) (wid : String) (w : ParaWallet)
    (h : env.paraGetWallet wid = .ok w) : (getWalletSvc env wid).1 = .ok w := by
  unfold getWalletSvc
  rw [h]

/-! ### The claims -/

/-- C1: when the user's custody wallet is not ready (status other than
`"ready"`, or no address), `POST /transaction/send` answers `Wallet Not
Ready` with HTTP 400 after only the database lookup and the custody
lookup: its trace contains no chain RPC call at all (no nonce or fee
lookup, no signing, no broadcast). -/
theorem c1_not_ready_no_chain_calls (env : Env) (uid : String)
    (req : SendTransactionRequest) (uw : UserWallet) (pw : ParaWallet)
    (hto : req.«to» ≠ "") (ham : req.amount ≠ "")
    (hga : getAddress env.keccak req.«to».data ≠ none)
    (hdb : env.getUserWallet uid = .ok (some uw))
    (hpw : env.paraGetWallet uw.para_wallet_id = .ok pw)
    (hnr : pw.status ≠ "ready" ∨ pw.address = none) :
    sendRoute env (some uid) req =
      (.walletNotReady,
       [ExtCall.dbGetUserWallet uid, ExtCall.paraGetWallet uw.para_wallet_id]) ∧
    SendResponse.walletNotReady.httpStatus = 400 ∧
    SendResponse.walletNotReady.errorLabel = some "Wallet Not Ready" ∧
    (sendRoute env (some uid) req).2.all (fun c => !c.isChainRpc) = true := by
  have hmain : sendRoute env (some uid) req =
      (.walletNotReady,
       [ExtCall.dbGetUserWallet uid, ExtCall.paraGetWallet uw.para_wallet_id]) := by
    unfold sendRoute
    dsimp only
    rw [if_neg (not_or.mpr ⟨hto, ham⟩)]
    cases hca : getAddress env.keccak req.«to».data with
    | none => exact absurd hca hga
    | some ca =>
      dsimp only
      rw [hdb]
      dsimp only
      rw [getWalletSvc_fst env uw.para_wallet_id pw hpw]
      dsimp only
      rcases hnr with hst | hnone
      · cases haddr : pw.address with
        | none => dsimp only
        | some a =>
          dsimp only
          rw [if_pos (Or.inl hst)]
      · rw [hnone]
  exact ⟨hmain, rfl, rfl, by rw [hmain]; rfl⟩

/-- C1 witness: a wallet with status `creating` is rejected as not
ready, with only the database and custody calls in the trace. -/
theorem c1_witness :
    sendRoute envNotReady (some "u1") reqFix =
      (.walletNotReady, [ExtCall.dbGetUserWallet "u1", ExtCall.paraGetWallet "w1"]) ∧
    SendResponse.walletNotReady.httpStatus = 400 ∧
    SendResponse.walletNotReady.errorLabel = some "Wallet Not Ready" ∧
    (sendRoute envNotReady (some "u1") reqFix).2.all (fun c => !c.isChainRpc) = true :=
  c1_not_ready_no_chain_calls envNotReady "u1" reqFix uwFix pwCreating
    (by decide) (by decide) (by decide) rfl rfl (Or.inl (by decide))

theorem txFieldItems_some_nonneg {tx : TxRecord} {fields : List Nat}
    (h : txFieldItems tx = some fields) :
    0 ≤ tx.chainId ∧ 0 ≤ tx.maxPriorityFeePerGas ∧ 0 ≤ tx.maxFeePerGas ∧
      0 ≤ tx.gasLimit ∧ 0 ≤ tx.value := by
  unfold txFieldItems at h
  simp only [Option.bind_eq_bind, Option.bind_eq_some, Option.pure_def,
    Option.some.injEq] at h
  obtain ⟨chainW, hcw, prioW, hpw, feeW, hfw, gasW, hgw, valW, hvw, toBody, htoB,
    dataB, hdB, hfields⟩ := h
  exact ⟨(intWord_some hcw).1, (intWord_some hpw).1, (intWord_some hfw).1,
    (intWord_some hgw).1, (intWord_some hvw).1⟩

/-- A transaction that serializes has no negative numeric field: the
RLP field encoding rejects negative quantities. -/
theorem serializeTransaction_some_nonneg {tx : TxRecord} {out : String}
    (h : serializeTransaction tx = some out) :
    0 ≤ tx.chainId ∧ 0 ≤ tx.maxPriorityFeePerGas ∧ 0 ≤ tx.maxFeePerGas ∧
      0 ≤ tx.gasLimit ∧ 0 ≤ tx.value := by
  unfold serializeTransaction at h
  split_ifs at h with hc
  cases hfi : txFieldItems tx with
  | none => rw [hfi] at h; simp at h
  | some fields => exact txFieldItems_some_nonneg hfi

/-- C3 counterexample: the amount `"0"` is not rejected — with every
external service succeeding, the full send pipeline reports success
with HTTP 201, not a 400 Bad Request. -/
theorem c3_zero_amount_succeeds :
    (sendRoute envOk (some "u1") { «to» := lowAddr, amount := "0" }).1 =
      .success "0xhash" lowAddr lowAddr "0" ∧
    SendResponse.httpStatus
      (sendRoute envOk (some "u1") { «to» := lowAddr, amount := "0" }).1 = 201 :=
  ⟨by decide, by decide⟩

/-- C3 (amended): amount conversion is exact — `"0.001"` becomes the
base-unit integer `10^15` with no rounding — and a non-numeric amount
never yields a built transaction; but `"0"` converts to `0` and is
accepted, a negative amount parses (rejection happens only later, in
serialization, since a built transaction's value is never negative),
and no amount is rejected with a 400: build failures surface as 500. -/
theorem c3_amount_parsing_exact :
    parseEther "0.001" = some 1000000000000000 ∧
    parseEther "0" = some 0 ∧
    parseEther "abc" = none ∧
    parseEther "-1" = some (-1000000000000000000) ∧
    (∀ env addr req tx dh tr,
      buildUnsignedTransaction env addr req = (.ok (tx, dh), tr) →
      parseEther req.amount = some tx.value ∧ 0 ≤ tx.value) ∧
    (∀ env addr req, parseEther req.amount = none →
      ∀ tx dh tr, buildUnsignedTransaction env addr req ≠ (.ok (tx, dh), tr)) := by
  refine ⟨by decide, by decide, by decide, by decide, ?_, ?_⟩
  · intro env addr req tx dh tr hb
    obtain ⟨_, _, _, _, hser, _, _, _, hpe⟩ := buildUnsignedTransaction_ok hb
    exact ⟨hpe, (serializeTransaction_some_nonneg hser).2.2.2.2⟩
  · intro env addr req hpe tx dh tr hb
    obtain ⟨_, _, _, _, _, _, _, _, hpe2⟩ := buildUnsignedTransaction_ok hb
    rw [hpe] at hpe2
    exact absurd hpe2 (by simp)

/-- C3 witness: the amended theorem at the fixture build — `"0.001"`
converts exactly to the built value `10^15`, which is nonnegative. -/
theorem c3_witness :
    parseEther reqFix.amount = some txFix.value ∧ 0 ≤ txFix.value :=
  c3_amount_parsing_exact.2.2.2.2.1 envOk lowAddr reqFix txFix dhFix trFix rfl

theorem pollAux_count_le (getW : Nat → Except String ParaWallet) (te : String) :
    ∀ remaining attempt, (pollAux getW te attempt remaining).2 ≤ remaining := by
  intro remaining
  induction remaining with
  | zero => intro attempt; simp [pollAux]
  | succ r ih =>
    intro attempt
    simp only [pollAux]
    cases getW attempt with
    | error e => simp
    | ok w =>
      dsimp only
      split_ifs with hr
      · simp
      · dsimp only
        exact Nat.succ_le_succ (ih (attempt + 1))

theorem pollAux_ok_ready (getW : Nat → Except String ParaWallet) (te : String) :
    ∀ remaining attempt w, (pollAux getW te attempt remaining).1 = .ok w →
      w.status = "ready" := by
  intro remaining
  induction remaining with
  | zero => intro attempt w h; exact absurd h (by simp [pollAux])
  | succ r ih =>
    intro attempt w h
    simp only [pollAux] at h
    cases hg : getW attempt with
    | error e => rw [hg] at h; exact absurd h (by simp)
    | ok w2 =>
      rw [hg] at h
      dsimp only at h
      split_ifs at h with hr
      · dsimp only at h
        rw [← Except.ok.inj h]
        exact hr
      · exact ih (attempt + 1) w h

theorem pollAux_all_not_ready (getW : Nat → Except String ParaWallet) (te : String) :
    ∀ remaining attempt,
      (∀ i, i < remaining → ∃ w, getW (attempt + i) = .ok w ∧ w.status ≠ "ready") →
      pollAux getW te attempt remaining = (.error te, remaining) := by
  intro remaining
  induction remaining with
  | zero => intro attempt _; simp [pollAux]
  | succ r ih =>
    intro attempt hall
    obtain ⟨w0, hg0, hs0⟩ := hall 0 (Nat.succ_pos r)
    rw [Nat.add_zero] at hg0
    simp only [pollAux]
    rw [hg0]
    dsimp only
    rw [if_neg hs0]
    have hrec := ih (attempt + 1) (fun i hi => by
      obtain ⟨w2, hg2, hs2⟩ := hall (i + 1) (Nat.succ_lt_succ hi)
      have he : attempt + 1 + i = attempt + (i + 1) := by omega
      rw [he]
      exact ⟨w2, hg2, hs2⟩)
    rw [hrec]

theorem pollAux_first_ready (getW : Nat → Except String ParaWallet) (te : String) :
    ∀ (j remaining attempt : Nat) (w : ParaWallet), j < remaining →
      getW (attempt + j) = .ok w → w.status = "ready" →
      (∀ i, i < j → ∃ w2, getW (attempt + i) = .ok w2 ∧ w2.status ≠ "ready") →
      pollAux getW te attempt remaining = (.ok w, j + 1) := by
  intro j
  induction j with
  | zero =>
    intro remaining attempt w hlt hg hs _
    match remaining, hlt with
    | r + 1, _ =>
      rw [Nat.add_zero] at hg
      simp only [pollAux]
      rw [hg]
      dsimp only
      rw [if_pos hs]
  | succ j ih =>
    intro remaining attempt w hlt hg hs hall
    match remaining, hlt with
    | r + 1, hlt =>
      obtain ⟨w0, hg0, hs0⟩ := hall 0 (Nat.succ_pos j)
      rw [Nat.add_zero] at hg0
      simp only [pollAux]
      rw [hg0]
      dsimp only
      rw [if_neg hs0]
      have hrec := ih r (attempt + 1) w (Nat.lt_of_succ_lt_succ hlt)
        (by have he : attempt + 1 + j = attempt + (j + 1) := by omega
            rw [he]
            exact hg) hs
        (fun i hi => by
          obtain ⟨w2, hg2, hs2⟩ := hall (i + 1) (Nat.succ_lt_succ hi)
          have he : attempt + 1 + i = attempt + (i + 1) := by omega
          rw [he]
          exact ⟨w2, hg2, hs2⟩)
      rw [hrec]

/-- C5 counterexample: a fetch failure does not produce the timeout
outcome — the first failed fetch aborts the whole poll with the wrapped
transport error, after one attempt out of three. -/
theorem c5_fetch_error_propagates :
    pollWalletReady (fun _ => .error "network down") "w1" 3 1000 =
      (.error "Failed to fetch wallet w1: network down", 1) ∧
    ("Failed to fetch wallet w1: network down" : String) ≠
      "Wallet w1 did not become ready after 3 attempts" :=
  ⟨rfl, by decide⟩

/-- C5 (amended): the poll performs at most `maxAttempts` fetches and
returns a wallet only if it is ready; when a ready wallet appears at
fetch `j` (all earlier fetches returning non-ready wallets) it returns
that wallet after `j + 1` fetches, and when all `maxAttempts` fetches
return non-ready wallets it fails with the timeout error; but a fetch
failure is a third terminal outcome: it aborts the poll with the
wrapped transport error instead of the timeout error. -/
theorem c5_poll_at_most_max_attempts (fetch : Nat → Except String ParaWallet)
    (walletId : String) (maxAttempts delayMs : Nat) :
    (pollWalletReady fetch walletId maxAttempts delayMs).2 ≤ maxAttempts ∧
    (∀ w, (pollWalletReady fetch walletId maxAttempts delayMs).1 = .ok w →
      w.status = "ready") ∧
    ((∀ i, i < maxAttempts → ∃ w, fetch i = .ok w ∧ w.status ≠ "ready") →
      pollWalletReady fetch walletId maxAttempts delayMs =
        (.error ("Wallet " ++ walletId ++ " did not become ready after " ++
          String.mk (natDec maxAttempts) ++ " attempts"), maxAttempts)) ∧
    (∀ j w, j < maxAttempts → fetch j = .ok w → w.status = "ready" →
      (∀ i, i < j → ∃ w2, fetch i = .ok w2 ∧ w2.status ≠ "ready") →
      pollWalletReady fetch walletId maxAttempts delayMs = (.ok w, j + 1)) := by
  refine ⟨pollAux_count_le _ _ maxAttempts 0, fun w h => pollAux_ok_ready _ _ maxAttempts 0 w h,
    fun hall => ?_, fun j w hlt hg hs hall => ?_⟩
  · exact pollAux_all_not_ready _ _ maxAttempts 0 (fun i hi => by
      obtain ⟨w, hf, hs⟩ := hall i (by omega)
      exact ⟨w, by simp only [Nat.zero_add]; rw [hf], hs⟩)
  · exact pollAux_first_ready _ _ j maxAttempts 0 w hlt
      (by simp only [Nat.zero_add]; rw [hg]) hs
      (fun i hi => by
        obtain ⟨w2, hf2, hs2⟩ := hall i hi
        exact ⟨w2, by simp only [Nat.zero_add]; rw [hf2], hs2⟩)

/-- C5 witness: with the first fetch non-ready and the second ready, the
poll returns the ready wallet after two of the three allowed fetches. -/
theorem c5_witness :
    pollWalletReady (fun i => if i = 0 then .ok pwCreating else .ok pwReady)
      "w1" 3 1000 = (.ok pwReady, 2) := by
  refine (c5_poll_at_most_max_attempts
    (fun i => if i = 0 then .ok pwCreating else .ok pwReady) "w1" 3 1000).2.2.2
    1 pwReady (by decide) rfl (by decide) ?_
  intro i hi
  have h0 : i = 0 := Nat.lt_one_iff.mp hi
  subst h0
  exact ⟨pwCreating, rfl, by decide⟩

/-- C6 counterexample: with fee estimate `(77, 33)` and no caller
overrides, the built transaction's gas limit is the constant `21000` —
not a value from the Chain Reader's fee estimate. -/
theorem c6_gas_limit_is_constant :
    (buildUnsignedTransaction envOk lowAddr reqFix).1 = .ok (txFix, dhFix) ∧
    envOk.getFeeData = .ok feeFix ∧
    feeFix.maxFeePerGas = some 77 ∧ feeFix.maxPriorityFeePerGas = some 33 ∧
    txFix.gasLimit = 21000 ∧ txFix.gasLimit ≠ 77 ∧ txFix.gasLimit ≠ 33 :=
  ⟨rfl, rfl, rfl, rfl, rfl, by decide, by decide⟩

/-- C6 (amended): in a successful build the nonce is the Chain Reader's
transaction count for the (re-checksummed) sender address, and the two
fee fields equal the caller's override when present and non-empty,
otherwise the fee estimate; the gas limit however defaults to the
constant `21000`, not to anything from the Chain Reader. -/
theorem c6_nonce_and_gas_sourcing (env : Env) (addr : String)
    (req : SendTransactionRequest) (tx : TxRecord) (dh : String) (tr : List ExtCall)
    (hb : buildUnsignedTransaction env addr req = (.ok (tx, dh), tr)) :
    (∃ cf ca, getAddress env.keccak addr.data = some cf ∧ tx.«from» = ⟨cf⟩ ∧
      getAddress env.keccak cf = some ca ∧
      env.getTransactionCount ⟨ca⟩ = .ok tx.nonce) ∧
    (∃ fd f p, env.getFeeData = .ok fd ∧ fd.maxFeePerGas = some f ∧
      fd.maxPriorityFeePerGas = some p ∧
      (match req.maxFeePerGas with
       | some s => if s ≠ "" then jsBigInt s = some tx.maxFeePerGas
         else tx.maxFeePerGas = f
       | none => tx.maxFeePerGas = f) ∧
      (match req.maxPriorityFeePerGas with
       | some s => if s ≠ "" then jsBigInt s = some tx.maxPriorityFeePerGas
         else tx.maxPriorityFeePerGas = p
       | none => tx.maxPriorityFeePerGas = p)) ∧
    (match req.gasLimit with
     | some s => if s ≠ "" then jsBigInt s = some tx.gasLimit
       else tx.gasLimit = 21000
     | none => tx.gasLimit = 21000) := by
  obtain ⟨_, _, _, _, _, _, ⟨cf, hcf, hfrom, hns⟩, ⟨gp, trG, hgp, hgl, hmf, hmp⟩, _⟩ :=
    buildUnsignedTransaction_ok hb
  obtain ⟨fd, f, p, hfd, hf, hp, hgp1, hgp2, _⟩ := getGasPricesSvc_ok hgp
  refine ⟨?_, ⟨fd, f, p, hfd, hf, hp, ?_, ?_⟩, hgl⟩
  · cases hpair : getNonceSvc env ⟨cf⟩ with
    | mk res trN =>
      rw [hpair] at hns
      dsimp only at hns
      rw [hns] at hpair
      obtain ⟨ca, hca, hgt, _⟩ := getNonceSvc_ok hpair
      exact ⟨cf, ca, hcf, hfrom, hca, hgt⟩
  · cases hreq : req.maxFeePerGas with
    | none =>
      rw [hreq] at hmf
      dsimp only at hmf ⊢
      rw [hgp1, jsBigInt_intDec] at hmf
      exact (Option.some.inj hmf).symm
    | some s =>
      rw [hreq] at hmf
      dsimp only at hmf ⊢
      by_cases hs : s ≠ ""
      · rw [if_pos hs] at hmf ⊢
        exact hmf
      · rw [if_neg hs] at hmf ⊢
        rw [hgp1, jsBigInt_intDec] at hmf
        exact (Option.some.inj hmf).symm
  · cases hreq : req.maxPriorityFeePerGas with
    | none =>
      rw [hreq] at hmp
      dsimp only at hmp ⊢
      rw [hgp2, jsBigInt_intDec] at hmp
      exact (Option.some.inj hmp).symm
    | some s =>
      rw [hreq] at hmp
      dsimp only at hmp ⊢
      by_cases hs : s ≠ ""
      · rw [if_pos hs] at hmp ⊢
        exact hmp
      · rw [if_neg hs] at hmp ⊢
        rw [hgp2, jsBigInt_intDec] at hmp
        exact (Option.some.inj hmp).symm

/-- C6 witness: in the fixture build the `from` address checksums to
itself, the nonce is the chain's count, and the fee fields carry the
fee estimate while the gas limit is `21000`. -/
theorem c6_witness :
    (∃ cf ca, getAddress envOk.keccak lowAddr.data = some cf ∧ txFix.«from» = ⟨cf⟩ ∧
      getAddress envOk.keccak cf = some ca ∧
      envOk.getTransactionCount ⟨ca⟩ = .ok txFix.nonce) ∧
    (∃ fd f p, envOk.getFeeData = .ok fd ∧ fd.maxFeePerGas = some f ∧
      fd.maxPriorityFeePerGas = some p ∧ txFix.maxFeePerGas = f ∧
      txFix.maxPriorityFeePerGas = p) ∧
    txFix.gasLimit = 21000 := by
  exact c6_nonce_and_gas_sourcing envOk lowAddr reqFix txFix dhFix trFix rfl

/-- C7: serializing the transaction built by `buildUnsignedTransaction`
and re-parsing the serialization yields identical consensus fields
(`to, value, nonce, gasLimit, maxFeePerGas, maxPriorityFeePerGas,
chainId`); every numeric field is nonnegative, so the parsed `Nat`
views are lossless. -/
theorem c7_build_serialize_parse_roundtrip (env : Env) (addr : String)
    (req : SendTransactionRequest) (tx : TxRecord) (dh : String) (tr : List ExtCall)
    (hb : buildUnsignedTransaction env addr req = (.ok (tx, dh), tr)) :
    parseTransaction env.keccak dh = some
      { chainId := tx.chainId.toNat, nonce := tx.nonce,
        maxPriorityFeePerGas := tx.maxPriorityFeePerGas.toNat,
        maxFeePerGas := tx.maxFeePerGas.toNat, gasLimit := tx.gasLimit.toNat,
        «to» := tx.«to», value := tx.value.toNat, dataHex := "0x", sig := none } ∧
    0 ≤ tx.chainId ∧ 0 ≤ tx.maxPriorityFeePerGas ∧ 0 ≤ tx.maxFeePerGas ∧
      0 ≤ tx.gasLimit ∧ 0 ≤ tx.value := by
  obtain ⟨htype, hsig, hdata, hcid, hser, ⟨ct, hct, hto⟩, _, _, _⟩ :=
    buildUnsignedTransaction_ok hb
  refine ⟨?_, serializeTransaction_some_nonneg hser⟩
  exact parse_serialize_unsigned env.keccak tx dh hsig hdata
    ⟨req.«to».data, by rw [hct, hto]⟩ hser

/-- C7 witness: re-parsing the fixture serialization recovers the
fixture fields. -/
theorem c7_witness :
    parseTransaction envOk.keccak dhFix = some
      { chainId := 11155111, nonce := 5, maxPriorityFeePerGas := 33,
        maxFeePerGas := 77, gasLimit := 21000, «to» := lowAddr,
        value := 1000000000000000, dataHex := "0x", sig := none } :=
  (c7_build_serialize_parse_roundtrip envOk lowAddr reqFix txFix dhFix trFix rfl).1

/-- C2: attaching the signer's signature and serializing for broadcast
preserves exactly the orchestrator's own transaction fields: parsing
the broadcast payload returns the unsigned transaction's own `to`,
`value`, `nonce`, `gasLimit`, `maxFeePerGas`, `maxPriorityFeePerGas`
and `chainId`, with the split signature as the only addition — nothing
the signer echoes can reach any other field. -/
theorem c2_signature_only_addition (env : Env) (addr : String)
    (req : SendTransactionRequest) (tx : TxRecord) (dh : String) (tr : List ExtCall)
    (sg out : String) (rW sW yW : Nat)
    (hb : buildUnsignedTransaction env addr req = (.ok (tx, dh), tr))
    (hsplit : splitSigChars
      (if sg.data.take 2 = ['0', 'x'] then sg else "0x" ++ sg).data = some (rW, sW, yW))
    (hser : serializeWithSignature tx sg = some out) :
    parseTransaction env.keccak out = some
      { chainId := tx.chainId.toNat, nonce := tx.nonce,
        maxPriorityFeePerGas := tx.maxPriorityFeePerGas.toNat,
        maxFeePerGas := tx.maxFeePerGas.toNat, gasLimit := tx.gasLimit.toNat,
        «to» := tx.«to», value := tx.value.toNat, dataHex := "0x",
        sig := some (rW, sW, yW) } := by
  obtain ⟨htype, hsig, hdata, hcid, hser0, ⟨ct, hct, hto⟩, _, _, _⟩ :=
    buildUnsignedTransaction_ok hb
  unfold serializeWithSignature at hser
  exact parse_serialize_signed env.keccak
    { tx with signature := some (if sg.data.take 2 = ['0', 'x'] then sg else "0x" ++ sg) }
    out (if sg.data.take 2 = ['0', 'x'] then sg else "0x" ++ sg) rW sW yW rfl hdata
    ⟨req.«to».data, by rw [hct, hto]⟩ hsplit hser

/-- C2 witness: the fixture broadcast payload parses back to the
fixture's own fields with the signature split from `sigFix` as the only
addition. -/
theorem c2_witness :
    parseTransaction envOk.keccak outFix = some
      { chainId := 11155111, nonce := 5, maxPriorityFeePerGas := 33,
        maxFeePerGas := 77, gasLimit := 21000, «to» := lowAddr,
        value := 1000000000000000, dataHex := "0x",
        sig := some (hexDigitsVal (List.replicate 64 'a'),
          hexDigitsVal (List.replicate 64 'b'), 0) } :=
  c2_signature_only_addition envOk lowAddr reqFix txFix dhFix trFix sigFix outFix
    (hexDigitsVal (List.replicate 64 'a')) (hexDigitsVal (List.replicate 64 'b')) 0
    rfl (by decide) rfl

/-- C8 counterexample: the shape check is only "`0x` prefix and length
66" — the non-hexadecimal string of 64 `z`s passes it, is not rejected
with 400, and reaches the chain query, which answers 404. -/
theorem c8_non_hex_hash_not_rejected :
    (zHash.data.drop 2).all isHexDigitCh = false ∧
    zHash.data.take 2 = ['0', 'x'] ∧ zHash.length = 66 ∧
    txStatusRoute envOk zHash = (.notFound, [ExtCall.rpcWaitForTransaction zHash]) ∧
    TxStatusResponse.notFound.httpStatus = 404 :=
  ⟨by decide, by decide, by decide, rfl, rfl⟩

/-- C8 (amended): the route rejects exactly the strings failing the
"`0x` prefix and length 66" shape test (hex digits are not checked)
with 400 and no chain query; for a conforming string a null receipt and
a failing lookup both give 404, and a receipt gives 200 with `status`
`"success"` exactly when the receipt's status code is 1, carrying block
number, gas used and value from the receipt. -/
theorem c8_status_shape_and_outcomes (env : Env) (h : String) :
    (¬(h.data.take 2 = ['0', 'x'] ∧ h.length = 66) →
      txStatusRoute env h = (.invalidHash, []) ∧
      TxStatusResponse.invalidHash.httpStatus = 400) ∧
    (h.data.take 2 = ['0', 'x'] → h.length = 66 →
      (env.waitForTransaction h = .ok none →
        txStatusRoute env h = (.notFound, [ExtCall.rpcWaitForTransaction h]) ∧
        TxStatusResponse.notFound.httpStatus = 404) ∧
      (∀ e, env.waitForTransaction h = .error e →
        txStatusRoute env h = (.notMined, [ExtCall.rpcWaitForTransaction h]) ∧
        TxStatusResponse.notMined.httpStatus = 404) ∧
      (∀ r, env.waitForTransaction h = .ok (some r) →
        txStatusRoute env h =
          (.found r.hash r.blockNumber r.blockHash
            (if r.status = some 1 then "success" else "failed")
            ⟨natDec r.gasUsed⟩ (r.gasPrice.map fun g => ⟨natDec g⟩) r.«from» r.«to»
            (match r.value with | some v => ⟨natDec v⟩ | none => "0"),
           [ExtCall.rpcWaitForTransaction h]) ∧
        TxStatusResponse.httpStatus (txStatusRoute env h).1 = 200)) := by
  constructor
  · intro hbad
    refine ⟨?_, rfl⟩
    unfold txStatusRoute
    rw [if_pos (not_and_or.mp hbad)]
  · intro hpre hlen
    have hcond : ¬(¬h.data.take 2 = ['0', 'x'] ∨ h.length ≠ 66) := by
      push_neg
      exact ⟨hpre, hlen⟩
    refine ⟨?_, ?_, ?_⟩
    · intro hw
      refine ⟨?_, rfl⟩
      unfold txStatusRoute
      rw [if_neg hcond, hw]
    · intro e hw
      refine ⟨?_, rfl⟩
      unfold txStatusRoute
      rw [if_neg hcond, hw]
    · intro r hw
      have hm : txStatusRoute env h =
          (.found r.hash r.blockNumber r.blockHash
            (if r.status = some 1 then "success" else "failed")
            ⟨natDec r.gasUsed⟩ (r.gasPrice.map fun g => ⟨natDec g⟩) r.«from» r.«to»
            (match r.value with | some v => ⟨natDec v⟩ | none => "0"),
           [ExtCall.rpcWaitForTransaction h]) := by
        unfold txStatusRoute
        rw [if_neg hcond, hw]
      exact ⟨hm, by rw [hm]; rfl⟩

/-- C8 witness: a conforming hash whose lookup returns no receipt is
answered 404. -/
theorem c8_witness :
    txStatusRoute envOk aHash = (.notFound, [ExtCall.rpcWaitForTransaction aHash]) ∧
    TxStatusResponse.notFound.httpStatus = 404 :=
  ((c8_status_shape_and_outcomes envOk aHash).2 (by decide) (by decide)).1 rfl

/-- C9 counterexample: with `PORT`, `NODE_ENV`, `PARA_BASE_URL` and
`SEPOLIA_CHAIN_ID` all absent from the environment, startup still
succeeds, filling their defaults — the listen port, environment name,
custody base URL and chain id are not required. -/
theorem c9_defaults_not_required :
    envC9 "PORT" = none ∧ envC9 "NODE_ENV" = none ∧ envC9 "PARA_BASE_URL" = none ∧
    envC9 "SEPOLIA_CHAIN_ID" = none ∧
    loadConfig envC9 = .ok
      { port := some 3000, nodeEnv := "development", supabaseUrl := some "x",
        supabaseAnonKey := some "x", supabaseServiceRoleKey := some "x",
        supabaseJwtSecret := some "x", paraApiKey := some "x",
        paraBaseUrl := "https://api.getpara.com", rpcUrl := some "x",
        chainId := some 11155111 } :=
  ⟨rfl, rfl, rfl, rfl, rfl⟩

/-- C9 (amended): startup throws exactly when one of the six variables
of `requiredVars` (identity-provider URL and keys, JWT secret, custody
API key, RPC URL) is missing; the listen port, environment name,
custody base URL and chain id are optional, defaulting to `3000`,
`"development"`, `"https://api.getpara.com"` and `11155111`. -/
theorem c9_only_six_required (env : String → Option String) :
    (∀ v, requiredVars.find? (fun v2 => (env v2).isNone) = some v →
      loadConfig env = .error ("Missing required environment variable: " ++ v)) ∧
    (∀ c, loadConfig env = .ok c → ∀ v ∈ requiredVars, (env v).isSome = true) ∧
    ((∀ v ∈ requiredVars, (env v).isSome = true) →
      loadConfig env = .ok
        { port := jsParseInt ((env "PORT").getD "3000"),
          nodeEnv := (env "NODE_ENV").getD "development",
          supabaseUrl := env "SUPABASE_URL",
          supabaseAnonKey := env "SUPABASE_ANON_KEY",
          supabaseServiceRoleKey := env "SUPABASE_SERVICE_ROLE_KEY",
          supabaseJwtSecret := env "SUPABASE_JWT_SECRET",
          paraApiKey := env "PARA_API_KEY",
          paraBaseUrl := (env "PARA_BASE_URL").getD "https://api.getpara.com",
          rpcUrl := env "SEPOLIA_RPC_URL",
          chainId := jsParseInt ((env "SEPOLIA_CHAIN_ID").getD "11155111") }) := by
  refine ⟨?_, ?_, ?_⟩
  · intro v hv
    unfold loadConfig
    rw [hv]
  · intro c hc v hv
    unfold loadConfig at hc
    cases hf : requiredVars.find? (fun v2 => (env v2).isNone) with
    | some v2 => rw [hf] at hc; exact absurd hc (by simp)
    | none =>
      have hnone := List.find?_eq_none.mp hf v hv
      cases henv : env v with
      | none => rw [henv] at hnone; simp at hnone
      | some a => simp [henv]
  · intro hall
    unfold loadConfig
    have hf : requiredVars.find? (fun v2 => (env v2).isNone) = none := by
      rw [List.find?_eq_none]
      intro x hx
      have hs := hall x hx
      cases henv : env x with
      | none => rw [henv] at hs; simp at hs
      | some a => simp [henv]
    rw [hf]

/-- C9 witness: with an empty environment, startup throws for the first
required variable. -/
theorem c9_witness :
    loadConfig (fun _ => none) =
      .error "Missing required environment variable: SUPABASE_URL" :=
  (c9_only_six_required (fun _ => none)).1 "SUPABASE_URL" rfl

/-- `intDec` agrees with `natDec` on a natural number. -/
theorem intDec_natCast (n : Nat) : intDec (n : Int) = natDec n := by
  unfold intDec
  rw [if_neg (by omega)]
  simp

/-- C10: the ETH figure of the wallet-details endpoint is the wei
balance bigint-divided by `10^18`, the fractional part discarded: below
`10^18` wei it reads `"0"`, and `1.5 * 10^18` wei reads `"1"`, never
`"1.5"`. -/
theorem c10_eth_balance_truncates (env : Env) (uid : String) (uw : UserWallet)
    (pw : ParaWallet) (addr : String) (ca : List Char) (wei : Nat)
    (hdb : env.getUserWallet uid = .ok (some uw))
    (hpw : env.paraGetWallet uw.para_wallet_id = .ok pw)
    (hst : pw.status = "ready") (haddr : pw.address = some addr) (hne : addr ≠ "")
    (hca : getAddress env.keccak addr.data = some ca)
    (hwei : env.getBalance ⟨ca⟩ = .ok wei) :
    getBalanceInEthSvc env addr =
      (.ok ⟨intDec ((wei : Int) / 10 ^ 18)⟩, [ExtCall.rpcGetBalance ⟨ca⟩]) ∧
    (walletRoute env (some uid)).1 =
      .ok pw.id pw.type pw.status (optOrNull (some addr)) (optOrNull pw.publicKey)
        (some ⟨⟨natDec wei⟩, ⟨intDec ((wei : Int) / 10 ^ 18)⟩⟩) pw.createdAt ∧
    (wei < 10 ^ 18 → (⟨intDec ((wei : Int) / 10 ^ 18)⟩ : String) = "0") ∧
    (wei = 1500000000000000000 → (⟨intDec ((wei : Int) / 10 ^ 18)⟩ : String) = "1") := by
  have hbal : getBalanceSvc env addr = (.ok ⟨natDec wei⟩, [ExtCall.rpcGetBalance ⟨ca⟩]) := by
    unfold getBalanceSvc
    rw [hca]
    dsimp only
    rw [hwei]
  have hjs : jsBigInt ⟨natDec wei⟩ = some (wei : Int) := by
    rw [← intDec_natCast]
    exact jsBigInt_intDec _
  have hsvc : getBalanceInEthSvc env addr =
      (.ok ⟨intDec ((wei : Int) / 10 ^ 18)⟩, [ExtCall.rpcGetBalance ⟨ca⟩]) := by
    unfold getBalanceInEthSvc
    rw [hbal]
    dsimp only
    rw [hjs]
  refine ⟨hsvc, ?_, ?_, ?_⟩
  · unfold walletRoute
    dsimp only
    rw [hdb]
    dsimp only
    rw [getWalletSvc_fst env uw.para_wallet_id pw hpw]
    dsimp only
    rw [haddr]
    dsimp only
    rw [if_pos ⟨hst, hne⟩, hbal]
    dsimp only
    rw [hsvc]
  · intro hlt
    have h0 : (wei : Int) / 10 ^ 18 = 0 :=
      Int.ediv_eq_zero_of_lt (by positivity) (by exact_mod_cast hlt)
    rw [h0]
    rfl
  · intro h15
    subst h15
    decide

/-- C10 witness: in `envOk` the fixture wallet holds
`1500000000000000000` wei and the endpoint reports the truncated ETH
figure `"1"`. -/
theorem c10_witness :
    (walletRoute envOk (some "u1")).1 =
      .ok "w1" "EVM" "ready" (some lowAddr) (some "pk")
        (some ⟨"1500000000000000000", "1"⟩) "t0" :=
  (c10_eth_balance_truncates envOk "u1" uwFix pwReady lowAddr lowAddr.data
    1500000000000000000 rfl rfl rfl rfl (by decide) (by decide) rfl).2.1

/-- C4: a send request whose `to` string is not a well-formed address is
answered `400 Bad Request` with an empty trace: no database lookup, no
custody call, and no chain RPC call happen. -/
theorem c4_invalid_address_rejected (env : Env) (uid : String)
    (req : SendTransactionRequest)
    (hto : req.«to» ≠ "") (ham : req.amount ≠ "")
    (hbad : getAddress env.keccak req.«to».data = none) :
    sendRoute env (some uid) req = (.invalidAddress, []) ∧
    SendResponse.invalidAddress.httpStatus = 400 ∧
    SendResponse.invalidAddress.errorLabel = some "Bad Request" := by
  refine ⟨?_, rfl, rfl⟩
  unfold sendRoute
  dsimp only
  rw [if_neg (not_or.mpr ⟨hto, ham⟩)]
  rw [hbad]

/-- C4 witness: `"not-an-address"` is rejected before any external
call. -/
theorem c4_witness :
    sendRoute envOk (some "u1") { «to» := "not-an-address", amount := "1" } =
      (.invalidAddress, []) ∧
    SendResponse.invalidAddress.httpStatus = 400 ∧
    SendResponse.invalidAddress.errorLabel = some "Bad Request" :=
  c4_invalid_address_rejected envOk "u1" { «to» := "not-an-address", amount := "1" }
    (by decide) (by decide) (by decide)

end ParaFintech
